import Mathlib

/-!
# klientctl `app.Builder`: template injection, variable resolution, stack build

A shallow embedding of `go/src/koding/klientctl/app/builder.go`.

* Decoded JSON (`interface{}` trees produced by `json.Unmarshal`) is the
  inductive type `Value`; a Go `map[string]interface{}` is an association list
  `Obj` read with `get` (first entry of a key) and written with `set` (replace
  the entry of the key, or add one).
* Go mutates maps in place through references.  The embedding passes values:
  a function that mutates a node returns the new node and the caller stores it
  back under the key it was reached by.
* Go leaves the order in which `range` visits a map unspecified.  The embedding
  visits the entries in the order of the association list; the theorems
  quantify over all lists, hence cover every visiting order.
* Library calls whose code is outside the file (`json.Unmarshal`,
  `json.Marshal`, `helper.Ask`, the `provider` package, the remote clients)
  are parameters.
-/

namespace Koding

/-! ## Data model -/

/-- A decoded JSON value (`interface{}` holding what `json.Unmarshal` builds).
A number is the rational value of the `float64`; the code never computes with
numbers. -/
inductive Value where
  | null : Value
  | bool (b : Bool) : Value
  | num (n : Rat) : Value
  | str (s : String) : Value
  | arr (items : List Value) : Value
  | obj (fields : List (String × Value)) : Value

/-- A Go `map[string]T` as an association list. -/
abbrev Assoc (α : Type) := List (String × α)

/-- A Go `map[string]interface{}`. -/
abbrev Obj := Assoc Value

/-- Map read `m[key]`: the entry of `key`, if any. -/
def get {α : Type} : Assoc α → String → Option α
  | [], _ => none
  | (k, v) :: rest, key => if k = key then some v else get rest key

/-- Map write `m[key] = v`: replaces the entry of `key`, or adds one. -/
def set {α : Type} : Assoc α → String → α → Assoc α
  | [], key, v => [(key, v)]
  | (k, w) :: rest, key, v =>
    if k = key then (key, v) :: rest else (k, w) :: set rest key v

/-- Removal of a key from a map (`delete(m, key)`); used to state what happens
to a template that lacks a key. -/
def erase {α : Type} : Assoc α → String → Assoc α
  | [], _ => []
  | (k, w) :: rest, key =>
    if k = key then erase rest key else (k, w) :: erase rest key

/-- The keys of a map, in list order. -/
def keysOf {α : Type} (m : Assoc α) : List String := m.map Prod.fst

/-- The type assertion `v.(map[string]interface{})` succeeds. -/
def Value.isObj : Value → Bool
  | .obj _ => true
  | _ => false

/-- Type `mixin.Mixin` as far as `replaceUserData` reads it: `CloudInit` is the
result of `m.CloudInit.String()`, `Machine` the extra machine attributes.
Attribute values are trees: distinct entries share no storage. -/
structure Mixin where
  CloudInit : String
  Machine : Obj

/-- Type `kstack.Description` as far as the builder reads it. -/
structure Description where
  CloudInit : Bool
  UserData : List String

/-- Errors returned by the builder.  Each constructor stands for one place
where the source creates or forwards an error. -/
inductive Err where
  /-- Failure of `json.Unmarshal` or `json.Marshal`. -/
  | decode (msg : String)
  /-- The error `fmt.Errorf("template does not contain %q key: %v", key, desc.UserData)`. -/
  | noKey (key : String) (userData : List String)
  /-- The error `errors.New("either provider or template is required to be non-empty")`. -/
  | noProviderNoTemplate
  /-- The error `fmt.Errorf("provider %q does not exist", prov)`. -/
  | noProvider (prov : String)
  /-- The error `fmt.Errorf("provider %q does not support cloud-init files", prov)`. -/
  | noCloudInit (prov : String)
  /-- The error `errors.New("no template file was provided")`. -/
  | noTemplateFile
  /-- The error `errors.New("error creating stack: " + err.Error())`. -/
  | creating (msg : String)
  /-- The error `fmt.Errorf("\nBuilding %q stack failed:\n%s\n", resp.Title, e.Error)`. -/
  | buildFailed (title : String) (msg : String)
  /-- An error forwarded unchanged from a collaborator (I/O, remote call). -/
  | other (msg : String)

/-- The text of an error (`err.Error()`).  `quote` is the rendering of a string
by the verb `%q` (`strconv.Quote`); `%v` prints a `[]string` between brackets
with blanks between the elements. -/
def Err.text (quote : String → String) : Err → String
  | .decode msg => msg
  | .noKey key userData =>
    "template does not contain " ++ quote key ++ " key: [" ++ " ".intercalate userData ++ "]"
  | .noProviderNoTemplate => "either provider or template is required to be non-empty"
  | .noProvider prov => "provider " ++ quote prov ++ " does not exist"
  | .noCloudInit prov => "provider " ++ quote prov ++ " does not support cloud-init files"
  | .noTemplateFile => "no template file was provided"
  | .creating msg => "error creating stack: " ++ msg
  | .buildFailed title msg => "\nBuilding " ++ quote title ++ " stack failed:\n" ++ msg ++ "\n"
  | .other msg => msg

/-- The string `t` occurs in the string `s`. -/
def Contains (s t : String) : Prop := ∃ a b : String, s = a ++ t ++ b

/-! ## `replaceUserData` -/

/-- The statement `for k, v := range m.Machine { machine[k] = v }`. -/
def assign (attrs : Obj) (machine : Obj) : Obj :=
  attrs.foldl (fun mach kv => set mach kv.1 kv.2) machine

/-- The inner loop of `replaceUserData` (lines 338-350) on one machine: walks
`keys`, stepping into nested objects, and stores the cloud-init payload under
the last key.  On success every key has been consumed. -/
def walk (payload : String) (userData : List String) :
    List String → Obj → Except Err Obj
  | [], machine => .ok machine
  | [key], machine => .ok (set machine key (.str payload))
  | key :: k2 :: keys, machine =>
    match get machine key with
    | some (.obj child) =>
      match walk payload userData (k2 :: keys) child with
      | .ok child' => .ok (set machine key (.obj child'))
      | .error e => .error e
    | _ => .error (.noKey key userData)

/-- What the mixin attribute map holds after one machine has been handled.
`machine[k] = v` stores a reference: when the walk steps through an attribute
value (first remaining key is an attribute and more keys follow), it writes
into the mixin's own object, which later machines then receive. -/
def attrsAfter (keys : List String) (attrs : Obj) (machine' : Obj) : Obj :=
  match keys with
  | key :: _ :: _ =>
    match get attrs key, get machine' key with
    | some _, some v => set attrs key v
    | _, _ => attrs
  | _ => attrs

/-- The loop `for _, v := range machines` of `replaceUserData` (lines 326-351).
`keys` is the variable shared with the first loop: the walk of one machine
consumes it, and the next machine starts from what is left. -/
def rangeMachines (payload : String) (userData : List String) :
    List String → Obj → Obj → Except Err Obj
  | _, _, [] => .ok []
  | keys, attrs, (name, .obj machine) :: rest =>
    match walk payload userData keys (assign attrs machine) with
    | .ok machine' =>
      match rangeMachines payload userData [] (attrsAfter keys attrs machine') rest with
      | .ok rest' => .ok ((name, .obj machine') :: rest')
      | .error e => .error e
    | .error e => .error e
  | keys, attrs, (name, v) :: rest =>
    match rangeMachines payload userData keys attrs rest with
    | .ok rest' => .ok ((name, v) :: rest')
    | .error e => .error e

/-- The first loop of `replaceUserData` (lines 311-322) followed by the second:
steps from `machines` into `machines[key]` until the key `"*"` (or the end of
the path), then ranges over the machines.  The node changed below is stored
back under its key, which is what the in-place mutation amounts to. -/
def replaceIn (m : Mixin) (userData : List String) :
    List String → Obj → Except Err Obj
  | [], machines => rangeMachines m.CloudInit userData [] m.Machine machines
  | key :: keys, machines =>
    if key = "*" then
      rangeMachines m.CloudInit userData keys m.Machine machines
    else
      match get machines key with
      | some (.obj child) =>
        match replaceIn m userData keys child with
        | .ok child' => .ok (set machines key (.obj child'))
        | .error e => .error e
      | _ => .error (.noKey key userData)

/-- Function `replaceUserData` (lines 290-354).  `unmarshal` is
`json.Unmarshal` into a `map[string]interface{}`. -/
def replaceUserData (unmarshal : String → Except Err Obj)
    (tmpl : String) (m : Mixin) (desc : Description) : Except Err Obj :=
  match unmarshal tmpl with
  | .error e => .error e
  | .ok root => replaceIn m desc.UserData ("resource" :: desc.UserData) root

/-- The node reached from `node` by following `path` through nested objects. -/
def descend : List String → Obj → Option Obj
  | [], node => some node
  | key :: keys, node =>
    match get node key with
    | some (.obj child) => descend keys child
    | _ => none

/-- The value stored at `path` below `node`. -/
def valueAt : List String → Obj → Option Value
  | [], _ => none
  | [key], node => get node key
  | key :: k2 :: keys, node =>
    match get node key with
    | some (.obj child) => valueAt (k2 :: keys) child
    | _ => none

/-- The tree `node` with the key `key` removed from the object at `path`. -/
def eraseAt : List String → String → Obj → Obj
  | [], key, node => erase node key
  | p :: path, key, node =>
    match get node p with
    | some (.obj child) => set node p (.obj (eraseAt path key child))
    | _ => node

/-! ## `Builder.BuildTemplate` -/

/-- Modelled from the spec: the type `provider.Variable`, declared in the
`provider` package; the spec gives a variable a name and the raw token it was
read from. -/
structure Variable where
  Name : String
  RawToken : String

/-- Type `TemplateOptions`. -/
structure TemplateOptions where
  UseDefaults : Bool
  Provider : String
  Template : String
  Mixin : Option Mixin

/-- What `BuildTemplate` calls outside the repository.  `Desc` is `b.Desc`
once `b.init()` has run; `Ask n name def` is the answer to the `n`-th prompt
`helper.Ask("Set %q to [%s]: ", name, def)` (prompts are numbered from zero in
the order they are issued); `Sprint` is `fmt.Sprintf("%v", v)`. -/
structure TemplateEnv where
  Desc : Assoc Description
  SampleTemplate : String → Except Err (String × Obj)
  ReadProvider : String → Except Err String
  Ask : Nat → String → String → Except Err String
  Sprint : Value → String
  Marshal : Obj → Except Err String
  UnmarshalMap : String → Except Err Obj
  Unmarshal : String → Except Err Value

/-! ### The `provider` package

`provider.ReadVariables`, `provider.ReplaceVariablesFunc` and
`Variable.String` belong to the repository but their code is not in the file
at hand.  They are modelled from the specification, with the placeholder
syntax `${name}` it gives. -/

/-- Modelled from the spec: a piece of a scanned template, either literal text
or one occurrence of a placeholder, with the name it embeds. -/
inductive Piece where
  | text (chars : List Char) : Piece
  | placeholder (name : List Char) : Piece

/-- Modelled from the spec: the state of the lexical scan.  `outside lit`:
in literal text `lit` (kept reversed); `dollar lit`: a `$` has been read after
`lit`; `inside lit name`: `${` has been read after `lit`, then `name`. -/
inductive ScanState where
  | outside (lit : List Char) : ScanState
  | dollar (lit : List Char) : ScanState
  | inside (lit name : List Char) : ScanState

/-- Modelled from the spec: the token `${name}` of a placeholder. -/
def rawToken (name : List Char) : List Char :=
  '$' :: '\x7b' :: name ++ ['\x7d']

/-- Modelled from the spec: the lexical scan of a template for placeholder
tokens `${name}`; a token that is not closed is literal text. -/
def scanFrom : List Char → ScanState → List Piece
  | [], .outside lit => [.text lit.reverse]
  | [], .dollar lit => [.text (lit.reverse ++ ['$'])]
  | [], .inside lit name => [.text (lit.reverse ++ '$' :: '\x7b' :: name.reverse)]
  | c :: cs, .outside lit =>
    if c = '$' then scanFrom cs (.dollar lit) else scanFrom cs (.outside (c :: lit))
  | c :: cs, .dollar lit =>
    if c = '\x7b' then scanFrom cs (.inside lit [])
    else if c = '$' then scanFrom cs (.dollar ('$' :: lit))
    else scanFrom cs (.outside (c :: '$' :: lit))
  | c :: cs, .inside lit name =>
    if c = '\x7d' then
      .text lit.reverse :: .placeholder name.reverse :: scanFrom cs (.outside [])
    else scanFrom cs (.inside lit (c :: name))

/-- Modelled from the spec: the pieces of a template. -/
def scan (tmpl : String) : List Piece :=
  scanFrom tmpl.data (.outside [])

/-- Modelled from the spec: the text that a scan state has read and not yet
turned into a piece. -/
def ScanState.pending : ScanState → List Char
  | .outside lit => lit.reverse
  | .dollar lit => lit.reverse ++ ['$']
  | .inside lit name => lit.reverse ++ '$' :: '\x7b' :: name.reverse

/-- Modelled from the spec: the text that a list of pieces stands for. -/
def render : List Piece → List Char
  | [] => []
  | .text chars :: rest => chars ++ render rest
  | .placeholder name :: rest => rawToken name ++ render rest

/-- Modelled from the spec: the method `Variable.String`, the canonical
textual form `${Name}` of a variable. -/
def Variable.String (v : Variable) : String :=
  ⟨rawToken v.Name.data⟩

/-- Modelled from the spec: the placeholder occurrences among the pieces, in
the order of the text. -/
def occurrences : List Piece → List Variable
  | [] => []
  | .text _ :: rest => occurrences rest
  | .placeholder name :: rest => ⟨⟨name⟩, ⟨rawToken name⟩⟩ :: occurrences rest

/-- Modelled from the spec: the variables `vars` in order, each name kept at
its first occurrence only; `seen` are the variables kept so far. -/
def dedupByName : List Variable → List Variable → List Variable
  | seen, [] => seen
  | seen, v :: vars =>
    if v.Name ∈ seen.map (fun w => w.Name) then dedupByName seen vars
    else dedupByName (seen ++ [v]) vars

/-- Modelled from the spec: `provider.ReadVariables`, the placeholders of a
template, deduplicated by name in first-seen order. -/
def ReadVariables (tmpl : String) : List Variable :=
  dedupByName [] (occurrences (scan tmpl))

/-- Modelled from the spec: the text of the pieces with every occurrence of a
variable of `vars` replaced by what `fn` returns for that variable. -/
def emit (vars : List Variable) (fn : Variable → String) : List Piece → List Char
  | [] => []
  | .text chars :: rest => chars ++ emit vars fn rest
  | .placeholder name :: rest =>
    (match vars.find? (fun v => decide (v.Name = ⟨name⟩)) with
     | some v => (fn v).data
     | none => rawToken name) ++ emit vars fn rest

/-- Modelled from the spec: `provider.ReplaceVariablesFunc`, the template with
every placeholder occurrence of the given variables replaced by the result of
the callback. -/
def ReplaceVariablesFunc (tmpl : String) (vars : List Variable) (fn : Variable → String) :
    String :=
  ⟨emit vars fn (scan tmpl)⟩

/-- The test `strings.HasPrefix(v.Name, "userInput_")`. -/
def isUserInput (name : String) : Bool :=
  "userInput_".data.isPrefixOf name.data

/-- The slice `v.Name[len("userInput_"):]`. -/
def stripUserInput (name : String) : String :=
  ⟨name.data.drop 10⟩

/-- Lines 119-122: the default value of the variable called `name`. -/
def defValue (sprint : Value → String) (defaults : Obj) (name : String) : String :=
  match get defaults name with
  | some .null => ""
  | some v => sprint v
  | none => ""

/-- Lines 132-134: an empty answer falls back to the default. -/
def orDefault (value defVal : String) : String :=
  if value = "" then defVal else value

/-- The loop of lines 113-137 over the scanned variables.  `input` is the map
being filled and `n` the number of prompts issued so far. -/
def readInput (env : TemplateEnv) (useDefaults : Bool) (defaults : Obj) :
    List Variable → Assoc String → Nat → Except Err (Assoc String × Nat)
  | [], input, n => .ok (input, n)
  | v :: vars, input, n =>
    if isUserInput v.Name then
      if useDefaults then
        readInput env useDefaults defaults vars
          (set input v.Name
            (orDefault "" (defValue env.Sprint defaults (stripUserInput v.Name)))) n
      else
        match env.Ask n (stripUserInput v.Name)
            (defValue env.Sprint defaults (stripUserInput v.Name)) with
        | .error e => .error e
        | .ok value =>
          readInput env useDefaults defaults vars
            (set input v.Name
              (orDefault value (defValue env.Sprint defaults (stripUserInput v.Name))))
            (n + 1)
    else
      readInput env useDefaults defaults vars input n

/-- The callback passed to `provider.ReplaceVariablesFunc` (lines 139-145). -/
def replacement (input : Assoc String) (v : Variable) : String :=
  match get input v.Name with
  | some s => s
  | none => v.String

/-- Lines 110-153: scan the variables, resolve the user inputs, substitute and
decode. -/
def substitute (env : TemplateEnv) (useDefaults : Bool) (defaults : Obj)
    (tmpl : String) : Except Err Value :=
  match readInput env useDefaults defaults (ReadVariables tmpl) [] 0 with
  | .error e => .error e
  | .ok (input, _) =>
    env.Unmarshal (ReplaceVariablesFunc tmpl (ReadVariables tmpl) (replacement input))

/-- Lines 69-78: the template and its defaults (a nil map unless a sample is
fetched). -/
def sourceTemplate (env : TemplateEnv) (opts : TemplateOptions) :
    Except Err (String × Obj) :=
  if opts.Template = "" then
    if opts.Provider = "" then .error .noProviderNoTemplate
    else env.SampleTemplate opts.Provider
  else .ok (opts.Template, [])

/-- Lines 92-108: the template rewritten with the mixin, when there is one. -/
def applyMixin (env : TemplateEnv) (opts : TemplateOptions) (prov : String)
    (desc : Description) (tmpl : String) : Except Err String :=
  match opts.Mixin with
  | none => .ok tmpl
  | some m =>
    if desc.CloudInit then
      match replaceUserData env.UnmarshalMap tmpl m desc with
      | .error e => .error e
      | .ok t => env.Marshal t
    else .error (.noCloudInit prov)

/-- Method `Builder.BuildTemplate` (lines 59-154). -/
def BuildTemplate (env : TemplateEnv) (opts : TemplateOptions) : Except Err Value :=
  match sourceTemplate env opts with
  | .error e => .error e
  | .ok (tmpl, defaults) =>
    match (if opts.Provider = "" then env.ReadProvider tmpl else .ok opts.Provider) with
    | .error e => .error e
    | .ok prov =>
      match get env.Desc prov with
      | none => .error (.noProvider prov)
      | some desc =>
        match applyMixin env opts prov desc tmpl with
        | .error e => .error e
        | .ok tmpl' => substitute env opts.UseDefaults defaults tmpl'

/-! ## `Builder.BuildStack` -/

/-- A Go `[]byte`. -/
abbrev Bytes := List UInt8

/-- Type `StackOptions`; `Template` is `none` for a nil slice. -/
structure StackOptions where
  Team : String
  Title : String
  Credentials : List String
  Template : Option Bytes
  File : String

/-- Type `stack.CreateOptions`. -/
structure CreateOptions where
  Team : String
  Title : String
  Credentials : List String
  Template : Option Bytes

/-- The fields of the response of `Create` that `BuildStack` reads. -/
structure CreateResponse where
  Title : String
  StackID : String
  EventID : String

/-- One value received from the channel returned by `Wait`: `Error` is the
text of `e.Error` (`none` for nil), the rest is `e.Event`. -/
structure Event where
  Error : Option String
  Percentage : Int
  Message : String

/-- What `BuildStack` calls outside the file.  A read returns the Go pair
`(data, err)`; `Create` fails with the text of its error; `Wait id` is the finite sequence of values the channel
delivers before it is closed. -/
structure StackEnv where
  ReadStdin : Option Bytes × Option Err
  ReadFile : String → Option Bytes × Option Err
  Create : CreateOptions → Except String CreateResponse
  Wait : String → List Event
  ListStacks : String → Except Err String

/-- What a run of `BuildStack` does that can be observed, in order. -/
inductive Effect where
  /-- The call `ioutil.ReadAll(os.Stdin)`. -/
  | readStdin
  /-- The call `ioutil.ReadFile(opts.File)`. -/
  | readFile (path : String)
  /-- The write `fmt.Fprintln(b.stderr(), "Creating stack... ")`. -/
  | announceCreate
  /-- The call `b.stack().Create(o)`. -/
  | create (o : CreateOptions)
  /-- The write `fmt.Fprintf(b.stderr(), "\nCreated %q stack with %s ID. ...", title, id)`. -/
  | announceCreated (title : String) (stackID : String)
  /-- The call `b.kloud().Wait(resp.EventID)`. -/
  | wait (eventID : String)
  /-- The write `fmt.Fprintf(b.stderr(), "[%d%%] %s\n", percentage, message)`. -/
  | progress (percentage : Int) (message : String)
  /-- The call `b.koding().ListStacks(&remoteapi.Filter{ID: resp.StackID})`. -/
  | listStacks (stackID : String)
  /-- The call `pretty.Println(s)`. -/
  | print (s : String)

/-- Method `StackOptions.template` (lines 164-181): the Go pair
`(bytes, err)` and the reads made. -/
def StackOptions.template (env : StackEnv) (opts : StackOptions) :
    (Option Bytes × Option Err) × List Effect :=
  match opts.Template with
  | some t => ((some t, none), [])
  | none =>
    if opts.File = "" then ((none, some .noTemplateFile), [])
    else if opts.File = "-" then (env.ReadStdin, [.readStdin])
    else (env.ReadFile opts.File, [.readFile opts.File])

/-- The loop `for e := range b.kloud().Wait(resp.EventID)` (lines 210-216). -/
def waitLoop (title : String) : List Event → Option Err × List Effect
  | [] => (none, [])
  | e :: es =>
    match e.Error with
    | some msg => (some (.buildFailed title msg), [])
    | none =>
      ((waitLoop title es).1, .progress e.Percentage e.Message :: (waitLoop title es).2)

/-- Method `Builder.BuildStack` (lines 188-226): the error returned (`none`
for nil) and what the run did. -/
def BuildStack (env : StackEnv) (opts : StackOptions) : Option Err × List Effect :=
  match StackOptions.template env opts with
  | ((_, some err), reads) => (some err, reads)
  | ((p, none), reads) =>
    match env.Create ⟨opts.Team, opts.Title, opts.Credentials, p⟩ with
    | .error msg =>
      (some (.creating msg),
        reads ++ [.announceCreate, .create ⟨opts.Team, opts.Title, opts.Credentials, p⟩])
    | .ok resp =>
      match waitLoop resp.Title (env.Wait resp.EventID) with
      | (some err, out) =>
        (some err,
          reads ++ [.announceCreate, .create ⟨opts.Team, opts.Title, opts.Credentials, p⟩,
            .announceCreated resp.Title resp.StackID, .wait resp.EventID] ++ out)
      | (none, out) =>
        match env.ListStacks resp.StackID with
        | .error e =>
          (some e,
            reads ++ [.announceCreate, .create ⟨opts.Team, opts.Title, opts.Credentials, p⟩,
              .announceCreated resp.Title resp.StackID, .wait resp.EventID] ++ out
              ++ [.listStacks resp.StackID])
        | .ok s =>
          (none,
            reads ++ [.announceCreate, .create ⟨opts.Team, opts.Title, opts.Credentials, p⟩,
              .announceCreated resp.Title resp.StackID, .wait resp.EventID] ++ out
              ++ [.listStacks resp.StackID, .print s])

/-! ## Relations between the tree before and after the injection -/

/-- The trees `node` and `node'` differ only below `path`: at every step the
key set is the same, every key other than the path segment has the same value,
the segment leads to an object in both, and the nodes reached at the end are
related by `Q`. -/
def Along (Q : Obj → Obj → Prop) : List String → Obj → Obj → Prop
  | [], node, node' => Q node node'
  | key :: path, node, node' =>
    keysOf node' = keysOf node ∧
    (∀ k, k ≠ key → get node' k = get node k) ∧
    ∃ child child', get node key = some (.obj child) ∧ get node' key = some (.obj child') ∧
      Along Q path child child'

/-- An entry of the wildcard level before and after: the key is the same, a
value that is not an object is the same, an object is still an object. -/
def SameShape (e e' : String × Value) : Prop :=
  e'.1 = e.1 ∧ (e.2.isObj = false → e'.2 = e.2) ∧ (e.2.isObj = true → e'.2.isObj = true)

/-- An entry of the wildcard level before and after, for a machine: the key is
the same and, apart from the key `first`, the new machine object holds every
attribute of `attrs` with its value and every other key with the value it had. -/
def Merged (attrs : Obj) (first : Option String) (e e' : String × Value) : Prop :=
  e'.1 = e.1 ∧
  ∀ machine, e.2 = .obj machine →
    ∃ machine', e'.2 = .obj machine' ∧
      ∀ k, some k ≠ first →
        (∀ v, get attrs k = some v → get machine' k = some v) ∧
        (get attrs k = none → get machine' k = get machine k)

/-! ## Observations on a run of `BuildStack` -/

/-- The progress reports among the effects of a run, in order. -/
def progressOf : List Effect → List (Int × String)
  | [] => []
  | .progress pct msg :: rest => (pct, msg) :: progressOf rest
  | _ :: rest => progressOf rest

/-- The templates handed to `Create` during a run, in order. -/
def createdWith : List Effect → List (Option Bytes)
  | [] => []
  | .create o :: rest => o.Template :: createdWith rest
  | _ :: rest => createdWith rest

/-- The length `len(p)` of a template; a nil slice has length zero. -/
def templateLen : Option Bytes → Nat
  | none => 0
  | some b => b.length

/-! ## Concrete inputs -/

/-- A decoder given by a finite table of texts and the trees they decode to. -/
def tableUnmarshal (table : Assoc Obj) (text : String) : Except Err Obj :=
  match get table text with
  | some root => .ok root
  | none => .error (.decode "invalid character")

/-- The template text
`{"resource":{"google_compute_instance":{"web":{"metadata":{}}}}}`. -/
def gceText : String :=
  "\x7b\"resource\":\x7b\"google_compute_instance\":\x7b\"web\":\x7b\"metadata\":\x7b\x7d\x7d\x7d\x7d\x7d"

/-- The tree the text `gceText` decodes to. -/
def gceTree : Obj :=
  [("resource", .obj [("google_compute_instance", .obj [("web", .obj [("metadata", .obj [])])])])]

/-- The description of a provider whose user data sits at
`google_compute_instance.*.metadata.user-data`. -/
def gceDesc : Description :=
  ⟨true, ["google_compute_instance", "*", "metadata", "user-data"]⟩

/-- A mixin with one machine attribute and a shell script as cloud-init. -/
def gceMixin : Mixin :=
  ⟨"#!/bin/bash\necho hi", [("zone", .str "us-central1-a")]⟩

/-- The template of the scenario with two machines, `a` and `b`. -/
def twoMachines : Obj :=
  [("resource", .obj [("google_compute_instance", .obj
    [("a", .obj [("metadata", .obj [])]), ("b", .obj [("metadata", .obj [])])])])]

/-- The same template with the machines in the other order. -/
def twoMachinesSwapped : Obj :=
  [("resource", .obj [("google_compute_instance", .obj
    [("b", .obj [("metadata", .obj [])]), ("a", .obj [("metadata", .obj [])])])])]

/-- A template with one `aws_instance` machine, `web`. -/
def awsTree : Obj :=
  [("resource", .obj [("aws_instance", .obj [("web", .obj [("ami", .str "ami-1")])])])]

/-- The description of a provider whose user data sits at
`aws_instance.*.user_data`. -/
def awsDesc : Description := ⟨true, ["aws_instance", "*", "user_data"]⟩

/-- A mixin whose machine attributes set the user-data key themselves. -/
def awsMixin : Mixin := ⟨"#cloud-config", [("user_data", .str "mine"), ("tag", .str "dev")]⟩

/-- Collaborators that all succeed: empty reads, a stack `"id1"` whose build
reports one event, a listing. -/
def calmEnv : StackEnv where
  ReadStdin := (some [], none)
  ReadFile := fun _ => (some [], none)
  Create := fun o => .ok ⟨o.Title, "id1", "ev1"⟩
  Wait := fun _ => [⟨none, 100, "done"⟩]
  ListStacks := fun _ => .ok "stack id1"

/-- As `calmEnv`, but the lookup of the built stack fails. -/
def lostEnv : StackEnv where
  ReadStdin := (some [], none)
  ReadFile := fun _ => (some [], none)
  Create := fun o => .ok ⟨o.Title, "id1", "ev1"⟩
  Wait := fun _ => [⟨none, 100, "done"⟩]
  ListStacks := fun _ => .error (.other "connection refused")

/-- As `calmEnv`, but the build fails after one progress event. -/
def failingEnv : StackEnv where
  ReadStdin := (some [], none)
  ReadFile := fun _ => (some [], none)
  Create := fun o => .ok ⟨o.Title, "id1", "ev1"⟩
  Wait := fun _ => [⟨none, 40, "applying"⟩, ⟨some "quota exceeded", 0, ""⟩]
  ListStacks := fun _ => .ok "stack id1"

/-- Options with a template that is present and has no bytes. -/
def emptyTemplateOpts : StackOptions := ⟨"team", "title", [], some [], ""⟩

/-- Options with a one-byte template. -/
def smallTemplateOpts : StackOptions := ⟨"team", "title", [], some [123], ""⟩

/-- The template text
`{"region":"${region}","zone":"${userInput_zone}","size":"${userInput_size}"}`. -/
def regionZoneText : String :=
  "\x7b\"region\":\"$\x7bregion\x7d\",\"zone\":\"$\x7buserInput_zone\x7d\",\"size\":\"$\x7buserInput_size\x7d\"\x7d"

/-- The template text `{"region":"${region}"}`. -/
def regionText : String :=
  "\x7b\"region\":\"$\x7bregion\x7d\"\x7d"

/-- The template `regionZoneText` with `a` for the zone and `y` for the size. -/
def regionZoneFilled : String :=
  "\x7b\"region\":\"$\x7bregion\x7d\",\"zone\":\"a\",\"size\":\"y\"\x7d"

/-- A decoder for the texts `regionText` and `regionZoneFilled`. -/
def regionUnmarshal (text : String) : Except Err Value :=
  if text = regionText then .ok (.obj [("region", .str "$\x7bregion\x7d")])
  else if text = regionZoneFilled then
    .ok (.obj [("region", .str "$\x7bregion\x7d"), ("zone", .str "a"), ("size", .str "y")])
  else .error (.decode "invalid character")

/-- Collaborators of `BuildTemplate` for the examples: one provider, the
first prompt answered with nothing and every later prompt with `"y"`. -/
def tinyEnv : TemplateEnv where
  Desc := [("google", gceDesc)]
  SampleTemplate := fun _ => .error (.other "no sample")
  ReadProvider := fun _ => .ok "google"
  Ask := fun n _ _ => if n = 0 then .ok "" else .ok "y"
  Sprint := fun v =>
    match v with
    | .str x => x
    | _ => "?"
  Marshal := fun _ => .error (.decode "unsupported")
  UnmarshalMap := tableUnmarshal []
  Unmarshal := regionUnmarshal

/-- The tree `gceTree` without the key `metadata` in the machine `web`. -/
def gceTreeNoMetadata : Obj :=
  [("resource", .obj [("google_compute_instance", .obj [("web", .obj [])])])]

/-- The tree `gceTree` without the key `google_compute_instance`. -/
def gceTreeNoType : Obj := [("resource", .obj [])]

/-- A mixin whose machine attributes bring the object `metadata` themselves. -/
def metadataMixin : Mixin := ⟨"#!/bin/bash\necho hi", [("metadata", .obj [])]⟩

/-- A decoder for the texts `"full"`, `"no-metadata"` and `"no-type"`. -/
def gceUnmarshal : String → Except Err Obj :=
  tableUnmarshal [("full", gceTree), ("no-metadata", gceTreeNoMetadata),
    ("no-type", gceTreeNoType)]

/-! ## Facts about map reads and writes -/

theorem get_set_same {α : Type} (m : Assoc α) (k : String) (v : α) :
    get (set m k v) k = some v := by
  induction m with
  | nil => simp [set, get]
  | cons e rest ih =>
    obtain ⟨k0, w⟩ := e
    by_cases h : k0 = k
    · simp [set, get, h]
    · simp [set, get, h, ih]

theorem get_set_ne {α : Type} (m : Assoc α) (k k' : String) (v : α) (h : k' ≠ k) :
    get (set m k v) k' = get m k' := by
  induction m with
  | nil => simp [set, get, Ne.symm h]
  | cons e rest ih =>
    obtain ⟨k0, w⟩ := e
    by_cases h0 : k0 = k
    · subst h0
      simp [set, get, Ne.symm h]
    · by_cases h1 : k0 = k'
      · subst h1
        simp [set, get, h0]
      · simp [set, get, h0, h1, ih]

theorem set_get_self {α : Type} (m : Assoc α) (k : String) (v : α)
    (h : get m k = some v) : set m k v = m := by
  induction m with
  | nil => simp [get] at h
  | cons e rest ih =>
    obtain ⟨k0, w⟩ := e
    by_cases h0 : k0 = k
    · subst h0
      simp [get] at h
      simp [set, h]
    · simp [get, h0] at h
      simp [set, h0, ih h]

theorem keysOf_set_of_get {α : Type} (m : Assoc α) (k : String) (v w : α)
    (h : get m k = some w) : keysOf (set m k v) = keysOf m := by
  induction m with
  | nil => simp [get] at h
  | cons e rest ih =>
    obtain ⟨k0, w0⟩ := e
    by_cases h0 : k0 = k
    · subst h0
      simp [set, keysOf]
    · simp [get, h0] at h
      have := ih h
      simp [keysOf] at this
      simp [set, h0, keysOf, this]

theorem get_erase_same {α : Type} (m : Assoc α) (k : String) :
    get (erase m k) k = none := by
  induction m with
  | nil => simp [erase, get]
  | cons e rest ih =>
    obtain ⟨k0, w⟩ := e
    by_cases h0 : k0 = k
    · simp [erase, h0, ih]
    · simp [erase, get, h0, ih]

theorem get_erase_ne {α : Type} (m : Assoc α) (k k' : String) (h : k' ≠ k) :
    get (erase m k) k' = get m k' := by
  induction m with
  | nil => simp [erase, get]
  | cons e rest ih =>
    obtain ⟨k0, w⟩ := e
    by_cases h0 : k0 = k
    · subst h0
      simp [erase, get, Ne.symm h, ih]
    · by_cases h1 : k0 = k'
      · subst h1
        simp [erase, get, h0]
      · simp [erase, get, h0, h1, ih]

theorem get_eq_none_of_not_mem {α : Type} (m : Assoc α) (k : String)
    (h : k ∉ keysOf m) : get m k = none := by
  induction m with
  | nil => simp [get]
  | cons e rest ih =>
    obtain ⟨k0, w⟩ := e
    simp [keysOf] at h
    have h0 : k0 ≠ k := fun hk => h.1 hk.symm
    have hr : k ∉ keysOf rest := by
      simp [keysOf]
      exact h.2
    simp [get, h0, ih hr]

/-! ## Facts about `replaceUserData` -/

theorem rangeMachines_nil (payload : String) (userData keys : List String) (attrs : Obj) :
    rangeMachines payload userData keys attrs [] = .ok [] := by
  simp [rangeMachines]

/-- When the literal prefix resolves to a node on which the machine loop
changes nothing, the whole tree is returned as it was. -/
theorem replaceIn_fixed (m : Mixin) (userData : List String) (post : List String)
    (node : Obj)
    (hnode : rangeMachines m.CloudInit userData post m.Machine node = .ok node) :
    ∀ (pre : List String) (root : Obj), "*" ∉ pre → descend pre root = some node →
      replaceIn m userData (pre ++ "*" :: post) root = .ok root := by
  intro pre
  induction pre with
  | nil =>
    intro root _ hd
    simp [descend] at hd
    subst hd
    simp [replaceIn, hnode]
  | cons key pre ih =>
    intro root hstar hd
    have hk : key ≠ "*" := fun h => hstar (by simp [h])
    have hpre : "*" ∉ pre := fun h => hstar (by simp [h])
    simp only [descend] at hd
    split at hd
    · rename_i child hget
      simp [replaceIn, hk, hget, ih child hpre hd, set_get_self _ _ _ hget]
    · simp at hd

/-! ## The injection scenario and the empty machine set -/

/-- C5: on the template `{"resource":{"google_compute_instance":{"web":{"metadata":{}}}}}`
with the path `google_compute_instance.*.metadata.user-data`, the machine
attribute `zone = "us-central1-a"` and the payload `"#!/bin/bash\necho hi"`,
`replaceUserData` returns a tree, without error, in which
`resource.google_compute_instance.web.zone` is `"us-central1-a"` and
`resource.google_compute_instance.web.metadata.user-data` is the payload. -/
theorem replaceUserData_gce_scenario (unmarshal : String → Except Err Obj)
    (hparse : unmarshal gceText = .ok gceTree) :
    ∃ root', replaceUserData unmarshal gceText gceMixin gceDesc = .ok root' ∧
      valueAt ["resource", "google_compute_instance", "web", "zone"] root'
        = some (.str "us-central1-a") ∧
      valueAt ["resource", "google_compute_instance", "web", "metadata", "user-data"] root'
        = some (.str "#!/bin/bash\necho hi") := by
  refine ⟨[("resource", .obj [("google_compute_instance", .obj [("web",
        .obj [("metadata", .obj [("user-data", .str "#!/bin/bash\necho hi")]),
              ("zone", .str "us-central1-a")])])])], ?_, rfl, rfl⟩
  simp only [replaceUserData, hparse]
  rfl

/-- The scenario of C5 with a decoder that knows the template text. -/
theorem replaceUserData_gce_scenario_witness :
    tableUnmarshal [(gceText, gceTree)] gceText = .ok gceTree ∧
    ∃ root', replaceUserData (tableUnmarshal [(gceText, gceTree)]) gceText gceMixin gceDesc
        = .ok root' ∧
      valueAt ["resource", "google_compute_instance", "web", "zone"] root'
        = some (.str "us-central1-a") ∧
      valueAt ["resource", "google_compute_instance", "web", "metadata", "user-data"] root'
        = some (.str "#!/bin/bash\necho hi") :=
  ⟨rfl, replaceUserData_gce_scenario (tableUnmarshal [(gceText, gceTree)]) rfl⟩

/-- C6: when the literal prefix (`"resource"` and the segments before `"*"`)
resolves to an empty object, `replaceUserData` returns, without error, the
decoded tree itself, for every mixin. -/
theorem replaceUserData_zero_match (unmarshal : String → Except Err Obj)
    (tmpl : String) (m : Mixin) (desc : Description) (root : Obj)
    (pre post : List String)
    (hparse : unmarshal tmpl = .ok root)
    (hpath : desc.UserData = pre ++ "*" :: post) (hstar : "*" ∉ pre)
    (hempty : descend ("resource" :: pre) root = some []) :
    replaceUserData unmarshal tmpl m desc = .ok root := by
  have hfix := replaceIn_fixed m desc.UserData post []
    (rangeMachines_nil _ _ _ _) ("resource" :: pre) root
    (by
      intro h
      rcases List.mem_cons.1 h with h | h
      · exact absurd h (by decide)
      · exact hstar h)
    hempty
  simp only [replaceUserData, hparse]
  have hkeys : "resource" :: desc.UserData = ("resource" :: pre) ++ "*" :: post := by
    simp [hpath]
  rw [hkeys]
  exact hfix

/-- An instance of C6: no machine of the resource type is defined. -/
theorem replaceUserData_zero_match_witness :
    (tableUnmarshal [("t", [("resource", .obj [("google_compute_instance", .obj [])]),
        ("provider", .str "google")])] "t"
      = .ok [("resource", .obj [("google_compute_instance", .obj [])]),
        ("provider", .str "google")]) ∧
    replaceUserData (tableUnmarshal [("t", [("resource", .obj [("google_compute_instance",
        .obj [])]), ("provider", .str "google")])]) "t" gceMixin gceDesc
      = .ok [("resource", .obj [("google_compute_instance", .obj [])]),
        ("provider", .str "google")] :=
  ⟨rfl, replaceUserData_zero_match _ "t" gceMixin gceDesc _ ["google_compute_instance"]
    ["metadata", "user-data"] rfl rfl (by decide) rfl⟩

/-! ## `BuildStack`: template source and build wait -/

theorem createdWith_append (xs ys : List Effect) :
    createdWith (xs ++ ys) = createdWith xs ++ createdWith ys := by
  induction xs with
  | nil => rfl
  | cons x xs ih => cases x <;> simp [createdWith, ih]

theorem progressOf_append (xs ys : List Effect) :
    progressOf (xs ++ ys) = progressOf xs ++ progressOf ys := by
  induction xs with
  | nil => rfl
  | cons x xs ih => cases x <;> simp [progressOf, ih]

theorem createdWith_template (env : StackEnv) (opts : StackOptions) :
    createdWith (StackOptions.template env opts).2 = [] := by
  unfold StackOptions.template
  split
  · rfl
  · split
    · rfl
    · split <;> rfl

theorem createdWith_waitLoop (title : String) (events : List Event) :
    createdWith (waitLoop title events).2 = [] := by
  induction events with
  | nil => rfl
  | cons e es ih =>
    unfold waitLoop
    split
    · rfl
    · simp [createdWith, ih]

theorem waitLoop_no_error (title : String) (events : List Event)
    (h : ∀ e ∈ events, e.Error = none) :
    waitLoop title events = (none, events.map (fun e => .progress e.Percentage e.Message)) := by
  induction events with
  | nil => rfl
  | cons e es ih =>
    have he : e.Error = none := h e (by simp)
    have hes : ∀ x ∈ es, x.Error = none := fun x hx => h x (by simp [hx])
    unfold waitLoop
    simp [he, ih hes]

theorem waitLoop_terminal (title msg : String) (pre : List Event) (e : Event)
    (h : ∀ x ∈ pre, x.Error = none) (he : e.Error = some msg) :
    waitLoop title (pre ++ [e])
      = (some (.buildFailed title msg), pre.map (fun x => .progress x.Percentage x.Message)) := by
  induction pre with
  | nil =>
    show waitLoop title [e] = _
    unfold waitLoop
    simp [he]
  | cons x xs ih =>
    have hx : x.Error = none := h x (by simp)
    have hxs : ∀ y ∈ xs, y.Error = none := fun y hy => h y (by simp [hy])
    show waitLoop title (x :: (xs ++ [e])) = _
    unfold waitLoop
    simp [hx, ih hxs]

theorem progressOf_map_progress (events : List Event) :
    progressOf (events.map (fun e => Effect.progress e.Percentage e.Message))
      = events.map (fun e => (e.Percentage, e.Message)) := by
  induction events with
  | nil => rfl
  | cons e es ih => simp [progressOf, ih]

theorem progressOf_template (env : StackEnv) (opts : StackOptions) :
    progressOf (StackOptions.template env opts).2 = [] := by
  unfold StackOptions.template
  split
  · rfl
  · split
    · rfl
    · split <;> rfl

theorem Contains.trans {s t u : String} (h₁ : Contains s t) (h₂ : Contains t u) :
    Contains s u := by
  obtain ⟨a, b, hab⟩ := h₁
  obtain ⟨c, d, hcd⟩ := h₂
  exact ⟨a ++ c, d ++ b, by simp [hab, hcd, String.append_assoc]⟩

theorem buildFailed_text_contains (quote : String → String) (title msg : String) :
    Contains ((Err.buildFailed title msg).text quote) (quote title) ∧
    Contains ((Err.buildFailed title msg).text quote) msg :=
  ⟨⟨"\nBuilding ", " stack failed:\n" ++ msg ++ "\n", by simp [Err.text, String.append_assoc]⟩,
   ⟨"\nBuilding " ++ quote title ++ " stack failed:\n", "\n", by simp [Err.text]⟩⟩

/-- C4, as the code has it: `StackOptions.template` returns the supplied
bytes when `Template` is not nil, fails when `Template` is nil and `File` is
empty, and otherwise returns what the read of standard input (`File` is
`"-"`) or of the file returns.  When it fails `BuildStack` returns that error
and `Create` is not called; when it does not fail `Create` is called once,
with exactly the bytes returned, whatever their length. -/
theorem BuildStack_template_source (env : StackEnv) (opts : StackOptions) :
    ((∃ err, (StackOptions.template env opts).1.2 = some err ∧
        (BuildStack env opts).1 = some err ∧
        createdWith (BuildStack env opts).2 = []) ∨
     ((StackOptions.template env opts).1.2 = none ∧
        createdWith (BuildStack env opts).2 = [(StackOptions.template env opts).1.1])) ∧
    (∀ t, opts.Template = some t → (StackOptions.template env opts).1 = (some t, none)) ∧
    (opts.Template = none → opts.File = "" →
      (StackOptions.template env opts).1 = (none, some .noTemplateFile)) ∧
    (opts.Template = none → opts.File = "-" →
      (StackOptions.template env opts).1 = env.ReadStdin) ∧
    (opts.Template = none → opts.File ≠ "" → opts.File ≠ "-" →
      (StackOptions.template env opts).1 = env.ReadFile opts.File) := by
  refine ⟨?_, ?_, ?_, ?_, ?_⟩
  · have hreads := createdWith_template env opts
    rcases hr : StackOptions.template env opts with ⟨⟨p, e⟩, reads⟩
    rw [hr] at hreads
    simp only at hreads
    cases e with
    | some err => exact Or.inl ⟨err, rfl, by simp [BuildStack, hr], by simp [BuildStack, hr, hreads]⟩
    | none =>
      refine Or.inr ⟨rfl, ?_⟩
      cases hc : env.Create ⟨opts.Team, opts.Title, opts.Credentials, p⟩ with
      | error msg => simp [BuildStack, hr, hc, createdWith_append, hreads, createdWith]
      | ok resp =>
        have hout := createdWith_waitLoop resp.Title (env.Wait resp.EventID)
        rcases hw : waitLoop resp.Title (env.Wait resp.EventID) with ⟨r, out⟩
        rw [hw] at hout
        simp only at hout
        cases r with
        | some err =>
          simp [BuildStack, hr, hc, hw, createdWith_append, hreads, createdWith, hout]
        | none =>
          cases hl : env.ListStacks resp.StackID with
          | error err =>
            simp [BuildStack, hr, hc, hw, hl, createdWith_append, hreads, createdWith, hout]
          | ok listing =>
            simp [BuildStack, hr, hc, hw, hl, createdWith_append, hreads, createdWith, hout]
  · intro t ht
    simp [StackOptions.template, ht]
  · intro ht hf
    simp [StackOptions.template, ht, hf]
  · intro ht hf
    simp [StackOptions.template, ht, hf]
  · intro ht hf hf'
    simp [StackOptions.template, ht, hf, hf']

/-- C4 fails as stated: a template that is present and has no bytes is
resolved without error, `BuildStack` returns nil and `Create` has been called
with the empty template. -/
theorem BuildStack_empty_template_counterexample :
    (StackOptions.template calmEnv emptyTemplateOpts).1 = (some [], none) ∧
    templateLen (StackOptions.template calmEnv emptyTemplateOpts).1.1 = 0 ∧
    (BuildStack calmEnv emptyTemplateOpts).1 = none ∧
    createdWith (BuildStack calmEnv emptyTemplateOpts).2 = [some []] :=
  ⟨rfl, rfl, rfl, rfl⟩

/-- C3, as the code has it.  Template resolution and `Create` succeed, the
response carrying the title `resp.Title`.  (1) If the events are `pre`
followed by one event with the error text `msg`, and no event of `pre` has an
error, `BuildStack` returns the error "Building (title) stack failed: (msg)",
whose text contains `msg` and the `%q` rendering of the title (hence the title
itself when that rendering contains it), after one progress report per event
of `pre`, in order.  (2) If no event has an error, one progress report is
written per event, in order, and then the result is that of the lookup
`ListStacks`: nil when it succeeds, its error when it fails. -/
theorem BuildStack_wait (env : StackEnv) (opts : StackOptions) (p : Option Bytes)
    (reads : List Effect) (resp : CreateResponse)
    (htmpl : StackOptions.template env opts = ((p, none), reads))
    (hcreate : env.Create ⟨opts.Team, opts.Title, opts.Credentials, p⟩ = .ok resp) :
    (∀ (pre : List Event) (e : Event) (msg : String),
      env.Wait resp.EventID = pre ++ [e] → (∀ x ∈ pre, x.Error = none) →
      e.Error = some msg →
        (BuildStack env opts).1 = some (.buildFailed resp.Title msg) ∧
        (∀ quote : String → String,
          Contains ((Err.buildFailed resp.Title msg).text quote) (quote resp.Title) ∧
          Contains ((Err.buildFailed resp.Title msg).text quote) msg ∧
          (Contains (quote resp.Title) resp.Title →
            Contains ((Err.buildFailed resp.Title msg).text quote) resp.Title)) ∧
        progressOf (BuildStack env opts).2 = pre.map (fun x => (x.Percentage, x.Message))) ∧
    ((∀ x ∈ env.Wait resp.EventID, x.Error = none) →
        progressOf (BuildStack env opts).2
          = (env.Wait resp.EventID).map (fun x => (x.Percentage, x.Message)) ∧
        (∀ listing, env.ListStacks resp.StackID = .ok listing →
          (BuildStack env opts).1 = none) ∧
        (∀ err, env.ListStacks resp.StackID = .error err →
          (BuildStack env opts).1 = some err)) := by
  have hreads : progressOf reads = [] := by
    have := progressOf_template env opts
    rw [htmpl] at this
    exact this
  constructor
  · intro pre e msg hev hpre he
    have hw := waitLoop_terminal resp.Title msg pre e hpre he
    rw [← hev] at hw
    refine ⟨by simp [BuildStack, htmpl, hcreate, hw], ?_, ?_⟩
    · intro quote
      have h := buildFailed_text_contains quote resp.Title msg
      exact ⟨h.1, h.2, fun hq => h.1.trans hq⟩
    · simp [BuildStack, htmpl, hcreate, hw, progressOf_append, hreads, progressOf,
        progressOf_map_progress]
  · intro hall
    have hw := waitLoop_no_error resp.Title (env.Wait resp.EventID) hall
    refine ⟨?_, ?_, ?_⟩
    · cases hl : env.ListStacks resp.StackID with
      | error err =>
        simp [BuildStack, htmpl, hcreate, hw, hl, progressOf_append, hreads, progressOf,
          progressOf_map_progress]
      | ok listing =>
        simp [BuildStack, htmpl, hcreate, hw, hl, progressOf_append, hreads, progressOf,
          progressOf_map_progress]
    · intro listing hl
      simp [BuildStack, htmpl, hcreate, hw, hl]
    · intro err hl
      simp [BuildStack, htmpl, hcreate, hw, hl]

/-- An instance of C3: a build that reports progress once and then fails
with "quota exceeded". -/
theorem BuildStack_wait_witness :
    StackOptions.template failingEnv smallTemplateOpts = ((some [123], none), []) ∧
    failingEnv.Create ⟨"team", "title", [], some [123]⟩ = .ok ⟨"title", "id1", "ev1"⟩ ∧
    (BuildStack failingEnv smallTemplateOpts).1
      = some (.buildFailed "title" "quota exceeded") ∧
    progressOf (BuildStack failingEnv smallTemplateOpts).2 = [(40, "applying")] :=
  have h := (BuildStack_wait failingEnv smallTemplateOpts (some [123]) []
    ⟨"title", "id1", "ev1"⟩ rfl rfl).1 [⟨none, 40, "applying"⟩]
    ⟨some "quota exceeded", 0, ""⟩ "quota exceeded" rfl
    (by intro x hx; simp at hx; subst hx; rfl) rfl
  ⟨rfl, rfl, h.1, h.2.2⟩

/-- C3 fails as stated: template resolution and `Create` succeed and no event
carries an error, yet `BuildStack` does not return nil, because the lookup of
the built stack fails. -/
theorem BuildStack_lookup_failure_counterexample :
    StackOptions.template lostEnv smallTemplateOpts = ((some [123], none), []) ∧
    lostEnv.Create ⟨"team", "title", [], some [123]⟩ = .ok ⟨"title", "id1", "ev1"⟩ ∧
    (∀ x ∈ lostEnv.Wait "ev1", x.Error = none) ∧
    (BuildStack lostEnv smallTemplateOpts).1 = some (.other "connection refused") :=
  ⟨rfl, rfl, by intro x hx; simp [lostEnv] at hx; subst hx; rfl, rfl⟩

/-! ## `BuildTemplate`: values of the variables and their substitution -/

theorem orDefault_empty (d : String) : orDefault "" d = d := by
  simp [orDefault]

/-- A name without the prefix is never written by the loop. -/
theorem readInput_frame (env : TemplateEnv) (useDefaults : Bool) (defaults : Obj) :
    ∀ (vars : List Variable) (input₀ : Assoc String) (n₀ : Nat) (input : Assoc String) (n : Nat),
      readInput env useDefaults defaults vars input₀ n₀ = .ok (input, n) →
      ∀ name, isUserInput name = false → get input name = get input₀ name := by
  intro vars
  induction vars with
  | nil =>
    intro input₀ n₀ input n h name _
    simp [readInput] at h
    rw [h.1]
  | cons v vars ih =>
    intro input₀ n₀ input n h name hname
    unfold readInput at h
    by_cases hv : isUserInput v.Name = true
    · have hne : name ≠ v.Name := by
        intro heq
        rw [heq, hv] at hname
        exact Bool.noConfusion hname
      simp only [hv, if_true] at h
      cases useDefaults with
      | true =>
        simp only [if_true] at h
        rw [ih _ _ _ _ h name hname, get_set_ne _ _ _ _ hne]
      | false =>
        simp only [Bool.false_eq_true, if_false] at h
        split at h
        · exact Except.noConfusion h
        · rw [ih _ _ _ _ h name hname, get_set_ne _ _ _ _ hne]
    · simp only [hv, if_false] at h
      exact ih _ _ _ _ h name hname

/-- Without a prefixed variable the loop records nothing and asks nothing. -/
theorem readInput_no_user_input (env : TemplateEnv) (useDefaults : Bool) (defaults : Obj) :
    ∀ (vars : List Variable) (input₀ : Assoc String) (n₀ : Nat),
      (∀ v ∈ vars, isUserInput v.Name = false) →
      readInput env useDefaults defaults vars input₀ n₀ = .ok (input₀, n₀) := by
  intro vars
  induction vars with
  | nil => intro input₀ n₀ _; rfl
  | cons v vars ih =>
    intro input₀ n₀ h
    have hv : isUserInput v.Name = false := h v (by simp)
    unfold readInput
    simp only [hv, Bool.false_eq_true, if_false]
    exact ih _ _ (fun w hw => h w (by simp [hw]))

/-- Defaults-forced mode: the loop succeeds, asks nothing, and an entry is
either as it was or the default of its name. -/
theorem readInput_defaults (env : TemplateEnv) (defaults : Obj) :
    ∀ (vars : List Variable) (input₀ : Assoc String) (n₀ : Nat),
      ∃ input, readInput env true defaults vars input₀ n₀ = .ok (input, n₀) ∧
        (∀ name, get input name = get input₀ name ∨
          get input name = some (defValue env.Sprint defaults (stripUserInput name))) ∧
        (∀ v ∈ vars, isUserInput v.Name = true →
          get input v.Name = some (defValue env.Sprint defaults (stripUserInput v.Name))) := by
  intro vars
  induction vars with
  | nil =>
    intro input₀ n₀
    exact ⟨input₀, rfl, fun _ => Or.inl rfl, fun v hv => absurd hv (List.not_mem_nil v)⟩
  | cons v vars ih =>
    intro input₀ n₀
    by_cases hv : isUserInput v.Name = true
    · obtain ⟨input, hrun, hany, hvars⟩ := ih
        (set input₀ v.Name (orDefault "" (defValue env.Sprint defaults (stripUserInput v.Name)))) n₀
      have hany' : ∀ name, get input name = get input₀ name ∨
          get input name = some (defValue env.Sprint defaults (stripUserInput name)) := by
        intro name
        rcases hany name with h | h
        · by_cases hn : name = v.Name
          · right
            rw [h, hn, get_set_same, orDefault_empty]
          · left
            rw [h, get_set_ne _ _ _ _ hn]
        · exact Or.inr h
      refine ⟨input, ?_, hany', ?_⟩
      · unfold readInput
        simp only [hv, if_true]
        exact hrun
      · intro w hw hwp
        rcases List.mem_cons.1 hw with hw | hw
        · subst hw
          rcases hany w.Name with h | h
          · rw [h, get_set_same, orDefault_empty]
          · exact h
        · exact hvars w hw hwp
    · obtain ⟨input, hrun, hany, hvars⟩ := ih input₀ n₀
      refine ⟨input, ?_, hany, ?_⟩
      · unfold readInput
        simp only [hv, if_false]
        exact hrun
      · intro w hw hwp
        rcases List.mem_cons.1 hw with hw | hw
        · subst hw
          exact absurd hwp hv
        · exact hvars w hw hwp

/-- Interactive mode: when the loop succeeds, an entry is either as it was or
what a prompt issued by the loop recorded for its name. -/
theorem readInput_interactive (env : TemplateEnv) (defaults : Obj) :
    ∀ (vars : List Variable) (input₀ : Assoc String) (n₀ : Nat) (input : Assoc String) (n : Nat),
      readInput env false defaults vars input₀ n₀ = .ok (input, n) →
      n₀ ≤ n ∧
      (∀ name, get input name = get input₀ name ∨
        ∃ i r, n₀ ≤ i ∧ i < n ∧
          env.Ask i (stripUserInput name)
            (defValue env.Sprint defaults (stripUserInput name)) = .ok r ∧
          get input name = some
            (if r = "" then defValue env.Sprint defaults (stripUserInput name) else r)) ∧
      (∀ v ∈ vars, isUserInput v.Name = true →
        ∃ i r, n₀ ≤ i ∧ i < n ∧
          env.Ask i (stripUserInput v.Name)
            (defValue env.Sprint defaults (stripUserInput v.Name)) = .ok r ∧
          get input v.Name = some
            (if r = "" then defValue env.Sprint defaults (stripUserInput v.Name) else r)) := by
  intro vars
  induction vars with
  | nil =>
    intro input₀ n₀ input n h
    simp [readInput] at h
    obtain ⟨h1, h2⟩ := h
    subst h1
    subst h2
    exact ⟨Nat.le_refl _, fun _ => Or.inl rfl, fun v hv => absurd hv (List.not_mem_nil v)⟩
  | cons v vars ih =>
    intro input₀ n₀ input n h
    unfold readInput at h
    by_cases hv : isUserInput v.Name = true
    · simp only [hv, if_true, Bool.false_eq_true, if_false] at h
      cases hask : env.Ask n₀ (stripUserInput v.Name)
          (defValue env.Sprint defaults (stripUserInput v.Name)) with
      | error e =>
        rw [hask] at h
        exact Except.noConfusion h
      | ok r =>
        rw [hask] at h
        simp only at h
        obtain ⟨hle, hany, hvars⟩ := ih _ _ _ _ h
        have hany' : ∀ name, get input name = get input₀ name ∨
            ∃ i r, n₀ ≤ i ∧ i < n ∧
              env.Ask i (stripUserInput name)
                (defValue env.Sprint defaults (stripUserInput name)) = .ok r ∧
              get input name = some
                (if r = "" then defValue env.Sprint defaults (stripUserInput name) else r) := by
          intro name
          rcases hany name with h' | ⟨i, r', hi, hi', hr', hg⟩
          · by_cases hn : name = v.Name
            · right
              refine ⟨n₀, r, Nat.le_refl _, by omega, by rw [hn]; exact hask, ?_⟩
              rw [h', hn, get_set_same]
              rfl
            · left
              rw [h', get_set_ne _ _ _ _ hn]
          · exact Or.inr ⟨i, r', by omega, hi', hr', hg⟩
        refine ⟨by omega, hany', ?_⟩
        intro w hw hwp
        rcases List.mem_cons.1 hw with hw | hw
        · subst hw
          rcases hany w.Name with h' | ⟨i, r', hi, hi', hr', hg⟩
          · refine ⟨n₀, r, Nat.le_refl _, by omega, hask, ?_⟩
            rw [h', get_set_same]
            rfl
          · exact ⟨i, r', by omega, hi', hr', hg⟩
        · obtain ⟨i, r', hi, hi', hr', hg⟩ := hvars w hw hwp
          exact ⟨i, r', by omega, hi', hr', hg⟩
    · simp only [hv, if_false] at h
      obtain ⟨hle, hany, hvars⟩ := ih _ _ _ _ h
      refine ⟨hle, hany, ?_⟩
      intro w hw hwp
      rcases List.mem_cons.1 hw with hw | hw
      · subst hw
        exact absurd hwp hv
      · exact hvars w hw hwp

/-- A name that no scanned variable carries is never written by the loop. -/
theorem readInput_untouched (env : TemplateEnv) (useDefaults : Bool) (defaults : Obj) :
    ∀ (vars : List Variable) (input₀ : Assoc String) (n₀ : Nat) (input : Assoc String) (n : Nat),
      readInput env useDefaults defaults vars input₀ n₀ = .ok (input, n) →
      ∀ name, (∀ w ∈ vars, w.Name ≠ name) → get input name = get input₀ name := by
  intro vars
  induction vars with
  | nil =>
    intro input₀ n₀ input n h name _
    simp [readInput] at h
    rw [h.1]
  | cons v vars ih =>
    intro input₀ n₀ input n h name hname
    have hne : name ≠ v.Name := fun heq => hname v (by simp) heq.symm
    have hrest : ∀ w ∈ vars, w.Name ≠ name := fun w hw => hname w (by simp [hw])
    unfold readInput at h
    by_cases hv : isUserInput v.Name = true
    · simp only [hv, if_true] at h
      cases useDefaults with
      | true =>
        simp only [if_true] at h
        rw [ih _ _ _ _ h name hrest, get_set_ne _ _ _ _ hne]
      | false =>
        simp only [Bool.false_eq_true, if_false] at h
        split at h
        · exact Except.noConfusion h
        · rw [ih _ _ _ _ h name hrest, get_set_ne _ _ _ _ hne]
    · simp only [hv, if_false] at h
      exact ih _ _ _ _ h name hrest

/-- Interactive mode, exactly: the loop issues one prompt per scanned variable
with the prefix, numbered in the order of the scan, and the value recorded
for a name is what the prompt of its last occurrence gave. -/
theorem readInput_interactive_exact (env : TemplateEnv) (defaults : Obj) :
    ∀ (vars : List Variable) (input₀ : Assoc String) (n₀ : Nat) (input : Assoc String) (n : Nat),
      readInput env false defaults vars input₀ n₀ = .ok (input, n) →
      n = n₀ + vars.countP (fun w => isUserInput w.Name) ∧
      ∀ (before : List Variable) (v : Variable) (after : List Variable),
        vars = before ++ v :: after → isUserInput v.Name = true →
        (∀ w ∈ after, w.Name ≠ v.Name) →
        ∃ r, env.Ask (n₀ + before.countP (fun w => isUserInput w.Name))
              (stripUserInput v.Name)
              (defValue env.Sprint defaults (stripUserInput v.Name)) = .ok r ∧
          get input v.Name = some
            (if r = "" then defValue env.Sprint defaults (stripUserInput v.Name) else r) := by
  intro vars
  induction vars with
  | nil =>
    intro input₀ n₀ input n h
    simp [readInput] at h
    refine ⟨by simp [h.2], ?_⟩
    intro before v after hsplit
    simp at hsplit
  | cons u rest ih =>
    intro input₀ n₀ input n h
    unfold readInput at h
    by_cases hu : isUserInput u.Name = true
    · simp only [hu, if_true, Bool.false_eq_true, if_false] at h
      cases hask : env.Ask n₀ (stripUserInput u.Name)
          (defValue env.Sprint defaults (stripUserInput u.Name)) with
      | error e =>
        rw [hask] at h
        exact Except.noConfusion h
      | ok r =>
        rw [hask] at h
        simp only at h
        obtain ⟨hn, hrec⟩ := ih _ _ _ _ h
        refine ⟨by rw [hn]; simp [List.countP_cons, hu]; omega, ?_⟩
        intro before v after hsplit hv hafter
        cases before with
        | nil =>
          simp only [List.nil_append, List.cons.injEq] at hsplit
          obtain ⟨huv, hrest⟩ := hsplit
          subst huv
          subst hrest
          refine ⟨r, by simpa using hask, ?_⟩
          rw [readInput_untouched env false defaults _ _ _ _ _ h u.Name hafter, get_set_same]
          rfl
        | cons b before' =>
          simp only [List.cons_append, List.cons.injEq] at hsplit
          obtain ⟨hub, hrest⟩ := hsplit
          subst hub
          obtain ⟨r', hr', hg⟩ := hrec before' v after hrest hv hafter
          refine ⟨r', ?_, hg⟩
          have hidx : n₀ + (u :: before').countP (fun w => isUserInput w.Name)
              = n₀ + 1 + before'.countP (fun w => isUserInput w.Name) := by
            simp [List.countP_cons, hu]
            omega
          rw [hidx]
          exact hr'
    · simp only [hu, if_false] at h
      obtain ⟨hn, hrec⟩ := ih _ _ _ _ h
      refine ⟨by rw [hn]; simp [List.countP_cons, hu], ?_⟩
      intro before v after hsplit hv hafter
      cases before with
      | nil =>
        simp only [List.nil_append, List.cons.injEq] at hsplit
        obtain ⟨huv, _⟩ := hsplit
        subst huv
        exact absurd hv hu
      | cons b before' =>
        simp only [List.cons_append, List.cons.injEq] at hsplit
        obtain ⟨hub, hrest⟩ := hsplit
        subst hub
        obtain ⟨r', hr', hg⟩ := hrec before' v after hrest hv hafter
        refine ⟨r', ?_, hg⟩
        have hidx : (u :: before').countP (fun w => isUserInput w.Name)
            = before'.countP (fun w => isUserInput w.Name) := by
          simp [List.countP_cons, hu]
        rw [hidx]
        exact hr'

/-- Interactive mode: when every prompt is answered, the loop completes. -/
theorem readInput_answered (env : TemplateEnv) (defaults : Obj)
    (hask : ∀ i name d, ∃ r, env.Ask i name d = .ok r) :
    ∀ (vars : List Variable) (input₀ : Assoc String) (n₀ : Nat),
      ∃ input n, readInput env false defaults vars input₀ n₀ = .ok (input, n) := by
  intro vars
  induction vars with
  | nil => intro input₀ n₀; exact ⟨input₀, n₀, rfl⟩
  | cons v vars ih =>
    intro input₀ n₀
    unfold readInput
    by_cases hv : isUserInput v.Name = true
    · obtain ⟨r, hr⟩ := hask n₀ (stripUserInput v.Name)
        (defValue env.Sprint defaults (stripUserInput v.Name))
      simp only [hv, if_true, Bool.false_eq_true, if_false, hr]
      exact ih _ _
    · simp only [hv, if_false]
      exact ih _ _

/-- C7: the value recorded by `BuildTemplate` for a scanned variable whose name
starts with `userInput_`.  The default is the `%v` form of the entry of the
stripped name in `defaults` when that entry is present and not null, and the
empty string otherwise.  With `UseDefaults` the loop always completes, issues
no prompt and records the default.  In interactive mode the loop completes
when every prompt is answered; when it completes it has issued one prompt per
scanned variable with the prefix, in the order of the scan, and the value
recorded for a name is the answer to the prompt of its last occurrence when
that answer is not empty, and the default when it is.  A name without the
prefix has no recorded value. -/
theorem readInput_values (env : TemplateEnv) (defaults : Obj) (vars : List Variable) :
    (∀ name,
      (∀ v, get defaults name = some v → v ≠ .null →
        defValue env.Sprint defaults name = env.Sprint v) ∧
      (get defaults name = some .null → defValue env.Sprint defaults name = "") ∧
      (get defaults name = none → defValue env.Sprint defaults name = "")) ∧
    (∃ input, readInput env true defaults vars [] 0 = .ok (input, 0) ∧
      ∀ v ∈ vars, isUserInput v.Name = true →
        get input v.Name = some (defValue env.Sprint defaults (stripUserInput v.Name))) ∧
    ((∀ i name d, ∃ r, env.Ask i name d = .ok r) →
      ∃ input n, readInput env false defaults vars [] 0 = .ok (input, n)) ∧
    (∀ input n, readInput env false defaults vars [] 0 = .ok (input, n) →
      n = vars.countP (fun w => isUserInput w.Name) ∧
      (∀ (before : List Variable) (v : Variable) (after : List Variable),
        vars = before ++ v :: after → isUserInput v.Name = true →
        (∀ w ∈ after, w.Name ≠ v.Name) →
        ∃ r, env.Ask (before.countP (fun w => isUserInput w.Name))
              (stripUserInput v.Name)
              (defValue env.Sprint defaults (stripUserInput v.Name)) = .ok r ∧
          get input v.Name = some
            (if r = "" then defValue env.Sprint defaults (stripUserInput v.Name) else r)) ∧
      (∀ v ∈ vars, isUserInput v.Name = true →
        ∃ i r, i < n ∧
          env.Ask i (stripUserInput v.Name)
            (defValue env.Sprint defaults (stripUserInput v.Name)) = .ok r ∧
          get input v.Name = some
            (if r = "" then defValue env.Sprint defaults (stripUserInput v.Name) else r))) ∧
    (∀ useDefaults input n, readInput env useDefaults defaults vars [] 0 = .ok (input, n) →
      ∀ name, isUserInput name = false → get input name = none) := by
  refine ⟨?_, ?_, ?_, ?_, ?_⟩
  · intro name
    refine ⟨?_, ?_, ?_⟩
    · intro v hv hnull
      unfold defValue
      rw [hv]
      cases v <;> first | rfl | exact absurd rfl hnull
    · intro h
      simp [defValue, h]
    · intro h
      simp [defValue, h]
  · obtain ⟨input, hrun, _, hvars⟩ := readInput_defaults env defaults vars [] 0
    exact ⟨input, hrun, hvars⟩
  · intro hask
    exact readInput_answered env defaults hask vars [] 0
  · intro input n h
    obtain ⟨hn, hrec⟩ := readInput_interactive_exact env defaults vars [] 0 input n h
    refine ⟨by simpa using hn, ?_, ?_⟩
    · intro before v after hsplit hv hafter
      obtain ⟨r, hr, hg⟩ := hrec before v after hsplit hv hafter
      exact ⟨r, by simpa using hr, hg⟩
    · intro v hv hvp
      obtain ⟨i, r, _, hi, hr, hg⟩ :=
        (readInput_interactive env defaults vars [] 0 input n h).2.2 v hv hvp
      exact ⟨i, r, hi, hr, hg⟩
  · intro useDefaults input n h name hname
    rw [readInput_frame env useDefaults defaults vars [] 0 input n h name hname]
    rfl

/-- An instance of C7: the variables of the template `regionZoneText`, the
default `zone = "a"`, the first prompt answered with nothing and the second
with `"y"`.  The zone is recorded with its default and the size with the
answer to the second prompt. -/
theorem readInput_values_witness :
    readInput tinyEnv true [("zone", .str "a")] (ReadVariables regionZoneText) [] 0
      = .ok ([("userInput_zone", "a"), ("userInput_size", "")], 0) ∧
    readInput tinyEnv false [("zone", .str "a")] (ReadVariables regionZoneText) [] 0
      = .ok ([("userInput_zone", "a"), ("userInput_size", "y")], 2) ∧
    ∃ r, tinyEnv.Ask 1 (stripUserInput "userInput_size")
        (defValue tinyEnv.Sprint [("zone", .str "a")] (stripUserInput "userInput_size")) = .ok r ∧
      get [("userInput_zone", "a"), ("userInput_size", "y")] "userInput_size" = some
        (if r = "" then
          defValue tinyEnv.Sprint [("zone", .str "a")] (stripUserInput "userInput_size")
         else r) :=
  ⟨rfl, rfl,
    ((readInput_values tinyEnv [("zone", .str "a")] (ReadVariables regionZoneText)).2.2.2.1
      [("userInput_zone", "a"), ("userInput_size", "y")] 2 rfl).2.1
      [⟨"region", "$\x7bregion\x7d"⟩, ⟨"userInput_zone", "$\x7buserInput_zone\x7d"⟩]
      ⟨"userInput_size", "$\x7buserInput_size\x7d"⟩ [] rfl rfl
      (fun w hw => absurd hw (List.not_mem_nil w))⟩

/-! ## The `provider` package: scanning and re-emission -/

/-- The pieces of a scan stand for the text read so far followed by the text
still to read. -/
theorem render_scanFrom :
    ∀ (cs : List Char) (st : ScanState), render (scanFrom cs st) = st.pending ++ cs := by
  intro cs
  induction cs with
  | nil =>
    intro st
    cases st <;> simp [scanFrom, render, ScanState.pending]
  | cons c cs ih =>
    intro st
    cases st with
    | outside lit =>
      by_cases h : c = '$'
      · simp [scanFrom, h, ih, ScanState.pending]
      · simp [scanFrom, h, ih, ScanState.pending]
    | dollar lit =>
      by_cases h : c = '\x7b'
      · simp [scanFrom, h, ih, ScanState.pending]
      · by_cases h' : c = '$'
        · simp [scanFrom, h', ih, ScanState.pending]
        · simp [scanFrom, h, h', ih, ScanState.pending]
    | inside lit name =>
      by_cases h : c = '\x7d'
      · simp [scanFrom, h, ih, render, rawToken, ScanState.pending]
      · simp [scanFrom, h, ih, ScanState.pending]

/-- The pieces of a template stand for its text. -/
theorem render_scan (tmpl : String) : (⟨render (scan tmpl)⟩ : String) = tmpl := by
  simp [scan, render_scanFrom, ScanState.pending]

/-- Two callbacks that agree on the variables given produce the same text. -/
theorem emit_congr (vars : List Variable) (fn fn' : Variable → String)
    (h : ∀ v ∈ vars, fn v = fn' v) :
    ∀ pieces : List Piece, emit vars fn pieces = emit vars fn' pieces := by
  intro pieces
  induction pieces with
  | nil => rfl
  | cons p rest ih =>
    cases p with
    | text chars => simp [emit, ih]
    | placeholder name =>
      simp only [emit, ih]
      cases hfind : vars.find? (fun v => decide (v.Name = ⟨name⟩)) with
      | none => rfl
      | some v =>
        simp only
        rw [h v (List.mem_of_find?_eq_some hfind)]

/-- Re-emitting every placeholder in its canonical form gives the text of the
pieces. -/
theorem emit_canonical (vars : List Variable) :
    ∀ pieces : List Piece, emit vars Variable.String pieces = render pieces := by
  intro pieces
  induction pieces with
  | nil => rfl
  | cons p rest ih =>
    cases p with
    | text chars => simp [emit, render, ih]
    | placeholder name =>
      simp only [emit, render, ih]
      cases hfind : vars.find? (fun v => decide (v.Name = ⟨name⟩)) with
      | none => rfl
      | some v =>
        have hname : v.Name = ⟨name⟩ := by
          have := List.find?_some hfind
          simpa using this
        simp [Variable.String, hname]

/-- Replacing every placeholder by its own canonical form gives the template
back, whatever the variables. -/
theorem ReplaceVariablesFunc_canonical (tmpl : String) (vars : List Variable) :
    ReplaceVariablesFunc tmpl vars Variable.String = tmpl := by
  unfold ReplaceVariablesFunc
  rw [emit_canonical]
  exact render_scan tmpl

/-- With a template and a provider given, a known provider and no mixin,
`BuildTemplate` is the substitution step run on the template as given, with
no defaults. -/
theorem BuildTemplate_plain (env : TemplateEnv) (opts : TemplateOptions) (desc : Description)
    (htmpl : opts.Template ≠ "") (hprov : opts.Provider ≠ "")
    (hdesc : get env.Desc opts.Provider = some desc) (hmixin : opts.Mixin = none) :
    BuildTemplate env opts = substitute env opts.UseDefaults [] opts.Template := by
  simp [BuildTemplate, sourceTemplate, applyMixin, htmpl, hprov, hdesc, hmixin]

/-- C8: the replacement that `BuildTemplate` makes for a placeholder.
(1) When the loop over the variables has completed with the recorded values
`input`, the result is the decoding of the template in which every occurrence
of a scanned variable with the prefix `userInput_` is replaced by the value
recorded for it and every other one by its own `Variable.String()`; these are
what the callback returns.  (2) With `UseDefaults` the result is the decoding
of the template with every prefixed variable replaced by its default.  (3)
Replacing every placeholder by its own canonical form gives the template back;
hence, when no scanned variable has the prefix, the substituted template is
the original one and `BuildTemplate` returns the decoding of the original. -/
theorem replacement_identity (env : TemplateEnv) (defaults : Obj) (tmpl : String) :
    (∀ useDefaults input n,
      readInput env useDefaults defaults (ReadVariables tmpl) [] 0 = .ok (input, n) →
      substitute env useDefaults defaults tmpl
        = env.Unmarshal (ReplaceVariablesFunc tmpl (ReadVariables tmpl)
            (fun v => if isUserInput v.Name = true then (get input v.Name).getD ""
              else v.String)) ∧
      (∀ v ∈ ReadVariables tmpl, isUserInput v.Name = true →
        ∃ s, get input v.Name = some s ∧ replacement input v = s) ∧
      (∀ v, isUserInput v.Name = false → replacement input v = v.String)) ∧
    substitute env true defaults tmpl
      = env.Unmarshal (ReplaceVariablesFunc tmpl (ReadVariables tmpl)
          (fun v => if isUserInput v.Name = true
            then defValue env.Sprint defaults (stripUserInput v.Name)
            else v.String)) ∧
    ReplaceVariablesFunc tmpl (ReadVariables tmpl) Variable.String = tmpl ∧
    (∀ useDefaults, (∀ v ∈ ReadVariables tmpl, isUserInput v.Name = false) →
      (∀ input n,
        readInput env useDefaults defaults (ReadVariables tmpl) [] 0 = .ok (input, n) →
        ReplaceVariablesFunc tmpl (ReadVariables tmpl) (replacement input) = tmpl) ∧
      substitute env useDefaults defaults tmpl = env.Unmarshal tmpl ∧
      ∀ (opts : TemplateOptions) (desc : Description),
        opts.Template = tmpl → opts.UseDefaults = useDefaults → tmpl ≠ "" →
        opts.Provider ≠ "" → get env.Desc opts.Provider = some desc →
        opts.Mixin = none →
        BuildTemplate env opts = env.Unmarshal tmpl) := by
  have hplain : ∀ (input : Assoc String) (v : Variable),
      isUserInput v.Name = false → get input v.Name = none → replacement input v = v.String := by
    intro input v _ hnone
    simp [replacement, hnone]
  have hchoice : ∀ useDefaults input n,
      readInput env useDefaults defaults (ReadVariables tmpl) [] 0 = .ok (input, n) →
      (∀ v ∈ ReadVariables tmpl, isUserInput v.Name = true →
        ∃ s, get input v.Name = some s ∧ replacement input v = s) ∧
      (∀ v, isUserInput v.Name = false → replacement input v = v.String) := by
    intro useDefaults input n h
    constructor
    · intro v hv hvp
      have hrec : ∃ s, get input v.Name = some s := by
        cases useDefaults with
        | true =>
          obtain ⟨input', hrun, _, hvars⟩ :=
            readInput_defaults env defaults (ReadVariables tmpl) [] 0
          rw [hrun] at h
          injection h with h
          injection h with h1 h2
          subst h1
          exact ⟨_, hvars v hv hvp⟩
        | false =>
          obtain ⟨i, r, _, _, _, hg⟩ :=
            (readInput_interactive env defaults (ReadVariables tmpl) [] 0 input n h).2.2
              v hv hvp
          exact ⟨_, hg⟩
      obtain ⟨s, hs⟩ := hrec
      exact ⟨s, hs, by simp [replacement, hs]⟩
    · intro v hv
      apply hplain input v hv
      rw [readInput_frame env useDefaults defaults _ [] 0 input n h v.Name hv]
      rfl
  have hsub : ∀ useDefaults input n,
      readInput env useDefaults defaults (ReadVariables tmpl) [] 0 = .ok (input, n) →
      substitute env useDefaults defaults tmpl
        = env.Unmarshal (ReplaceVariablesFunc tmpl (ReadVariables tmpl)
            (fun v => if isUserInput v.Name = true then (get input v.Name).getD ""
              else v.String)) := by
    intro useDefaults input n h
    have hagree : ∀ v ∈ ReadVariables tmpl, replacement input v
        = (if isUserInput v.Name = true then (get input v.Name).getD "" else v.String) := by
      intro v hv
      by_cases hvp : isUserInput v.Name = true
      · obtain ⟨s, hs, hr⟩ := (hchoice useDefaults input n h).1 v hv hvp
        simp [hvp, hs, hr]
      · have hvp' : isUserInput v.Name = false := by
          cases hb : isUserInput v.Name with
          | true => exact absurd hb hvp
          | false => rfl
        simp [hvp', (hchoice useDefaults input n h).2 v hvp']
    simp only [substitute, h, ReplaceVariablesFunc]
    rw [emit_congr _ _ _ hagree]
  refine ⟨fun useDefaults input n h => ⟨hsub useDefaults input n h, hchoice useDefaults input n h⟩,
    ?_, ReplaceVariablesFunc_canonical tmpl _, ?_⟩
  · obtain ⟨input, hrun, _, hvars⟩ := readInput_defaults env defaults (ReadVariables tmpl) [] 0
    rw [hsub true input 0 hrun]
    have hagree : ∀ v ∈ ReadVariables tmpl,
        (if isUserInput v.Name = true then (get input v.Name).getD "" else v.String)
          = (if isUserInput v.Name = true
              then defValue env.Sprint defaults (stripUserInput v.Name)
              else v.String) := by
      intro v hv
      by_cases hvp : isUserInput v.Name = true
      · simp [hvp, hvars v hv hvp]
      · simp [hvp]
    simp only [ReplaceVariablesFunc]
    rw [emit_congr _ _ _ hagree]
  · intro useDefaults hnone
    have hrun := readInput_no_user_input env useDefaults defaults (ReadVariables tmpl) [] 0 hnone
    have hsame : ReplaceVariablesFunc tmpl (ReadVariables tmpl) (replacement [])
        = tmpl := by
      have hfun : replacement [] = Variable.String := by
        funext v
        simp [replacement, get]
      rw [hfun]
      exact ReplaceVariablesFunc_canonical tmpl _
    have hres : substitute env useDefaults defaults tmpl = env.Unmarshal tmpl := by
      simp only [substitute, hrun]
      rw [hsame]
    refine ⟨?_, hres, ?_⟩
    · intro input n h
      rw [hrun] at h
      injection h with h
      injection h with h1 _
      subst h1
      exact hsame
    · intro opts desc ht hu hne hprov hdesc hmixin
      subst ht
      subst hu
      have hrun' := readInput_no_user_input env opts.UseDefaults []
        (ReadVariables opts.Template) [] 0 hnone
      rw [BuildTemplate_plain env opts desc hne hprov hdesc hmixin]
      simp only [substitute, hrun']
      rw [hsame]

/-- An instance of C8.  The template `{"region":"${region}"}` has no
`userInput_` variable and `BuildTemplate` returns its decoding; in the
template `regionZoneText` the zone is replaced by its default `a`, the size by
the answer `y`, and `${region}` is re-emitted as it is. -/
theorem replacement_identity_witness :
    (∀ v ∈ ReadVariables regionText, isUserInput v.Name = false) ∧
    BuildTemplate tinyEnv ⟨false, "google", regionText, none⟩
      = .ok (.obj [("region", .str "$\x7bregion\x7d")]) ∧
    substitute tinyEnv false [("zone", .str "a")] regionZoneText
      = .ok (.obj [("region", .str "$\x7bregion\x7d"), ("zone", .str "a"),
          ("size", .str "y")]) :=
  have hnone : ∀ v ∈ ReadVariables regionText, isUserInput v.Name = false := by
    intro v hv
    have hv' : v ∈ [(⟨"region", "$\x7bregion\x7d"⟩ : Variable)] := hv
    simp at hv'
    subst hv'
    rfl
  ⟨hnone,
    ((replacement_identity tinyEnv [] regionText).2.2.2 false hnone).2.2
      ⟨false, "google", regionText, none⟩ gceDesc rfl rfl (by decide) (by decide) rfl rfl,
    ((replacement_identity tinyEnv [("zone", .str "a")] regionZoneText).1 false
      [("userInput_zone", "a"), ("userInput_size", "y")] 2 rfl).1⟩


/-! ## `replaceUserData`: the machines after the first -/

/-- C1 at a template with two machines: whichever of `a` and `b` is visited
first, `replaceUserData` succeeds, both machines receive the attribute `zone`,
the machine visited first receives the payload at `metadata.user-data`, and
the machine visited second does not: its `metadata` is still empty. -/
theorem replaceUserData_second_machine_skipped :
    (∃ root', replaceUserData (tableUnmarshal [("t", twoMachines)]) "t" gceMixin gceDesc
        = .ok root' ∧
      valueAt ["resource", "google_compute_instance", "a", "zone"] root'
        = some (.str "us-central1-a") ∧
      valueAt ["resource", "google_compute_instance", "b", "zone"] root'
        = some (.str "us-central1-a") ∧
      valueAt ["resource", "google_compute_instance", "a", "metadata", "user-data"] root'
        = some (.str "#!/bin/bash\necho hi") ∧
      valueAt ["resource", "google_compute_instance", "b", "metadata", "user-data"] root'
        = none) ∧
    (∃ root', replaceUserData (tableUnmarshal [("t", twoMachinesSwapped)]) "t" gceMixin gceDesc
        = .ok root' ∧
      valueAt ["resource", "google_compute_instance", "a", "zone"] root'
        = some (.str "us-central1-a") ∧
      valueAt ["resource", "google_compute_instance", "b", "zone"] root'
        = some (.str "us-central1-a") ∧
      valueAt ["resource", "google_compute_instance", "b", "metadata", "user-data"] root'
        = some (.str "#!/bin/bash\necho hi") ∧
      valueAt ["resource", "google_compute_instance", "a", "metadata", "user-data"] root'
        = none) :=
  ⟨⟨_, rfl, rfl, rfl, rfl, rfl⟩, ⟨_, rfl, rfl, rfl, rfl, rfl⟩⟩

/-! ## `replaceUserData`: one machine -/

theorem rangeMachines_cons_obj (payload : String) (userData keys : List String)
    (attrs : Obj) (name : String) (machine : Obj) (rest : Obj) :
    rangeMachines payload userData keys attrs ((name, .obj machine) :: rest)
      = match walk payload userData keys (assign attrs machine) with
        | .ok machine' =>
          match rangeMachines payload userData [] (attrsAfter keys attrs machine') rest with
          | .ok rest' => .ok ((name, .obj machine') :: rest')
          | .error e => .error e
        | .error e => .error e := by
  simp [rangeMachines]

theorem rangeMachines_cons_other (payload : String) (userData keys : List String)
    (attrs : Obj) (name : String) (v : Value) (rest : Obj) (hv : v.isObj = false) :
    rangeMachines payload userData keys attrs ((name, v) :: rest)
      = match rangeMachines payload userData keys attrs rest with
        | .ok rest' => .ok ((name, v) :: rest')
        | .error e => .error e := by
  cases v <;> first | exact Bool.noConfusion hv | simp [rangeMachines]

theorem walk_cons_cons (payload : String) (userData : List String) (key : String)
    (tail : List String) (machine : Obj) (htail : tail ≠ []) :
    walk payload userData (key :: tail) machine
      = match get machine key with
        | some (.obj child) =>
          match walk payload userData tail child with
          | .ok child' => .ok (set machine key (.obj child'))
          | .error e => .error e
        | _ => .error (.noKey key userData) := by
  cases tail with
  | nil => exact absurd rfl htail
  | cons k2 keys => simp [walk]

/-- A walk writes the machine object it starts from at its first key only. -/
theorem walk_get_ne (payload : String) (userData keys : List String) (machine machine' : Obj)
    (h : walk payload userData keys machine = .ok machine') (k : String)
    (hk : some k ≠ keys.head?) : get machine' k = get machine k := by
  cases keys with
  | nil =>
    simp [walk] at h
    rw [h]
  | cons key tail =>
    have hne : k ≠ key := fun heq => hk (by simp [heq])
    cases tail with
    | nil =>
      simp [walk] at h
      rw [← h, get_set_ne _ _ _ _ hne]
    | cons k2 rest =>
      rw [walk_cons_cons _ _ _ _ _ (by simp)] at h
      split at h
      · split at h
        · injection h with h
          rw [← h, get_set_ne _ _ _ _ hne]
        · exact Except.noConfusion h
      · exact Except.noConfusion h

theorem get_assign_none (attrs : Obj) (k : String) (h : get attrs k = none) :
    ∀ machine, get (assign attrs machine) k = get machine k := by
  induction attrs with
  | nil => intro machine; rfl
  | cons e rest ih =>
    intro machine
    obtain ⟨k0, v0⟩ := e
    have h0 : k0 ≠ k := by
      intro heq
      simp [get, heq] at h
    have hrest : get rest k = none := by
      simpa [get, h0] using h
    show get (assign rest (set machine k0 v0)) k = get machine k
    rw [ih hrest, get_set_ne _ _ _ _ (Ne.symm h0)]

theorem get_assign_some (attrs : Obj) (hnodup : (keysOf attrs).Nodup) (k : String) (v : Value)
    (h : get attrs k = some v) :
    ∀ machine, get (assign attrs machine) k = some v := by
  induction attrs with
  | nil => simp [get] at h
  | cons e rest ih =>
    intro machine
    obtain ⟨k0, v0⟩ := e
    have hnd : k0 ∉ keysOf rest ∧ (keysOf rest).Nodup := by
      simpa [keysOf] using hnodup
    show get (assign rest (set machine k0 v0)) k = some v
    by_cases h0 : k0 = k
    · subst h0
      have hv : v0 = v := by simpa [get] using h
      rw [get_assign_none rest k0 (get_eq_none_of_not_mem rest k0 hnd.1), get_set_same, hv]
    · have hrest : get rest k = some v := by
        simpa [get, h0] using h
      exact ih hnd.2 hrest _

theorem keysOf_attrsAfter (keys : List String) (attrs machine' : Obj) :
    keysOf (attrsAfter keys attrs machine') = keysOf attrs := by
  unfold attrsAfter
  split
  · split
    · rename_i h _
      exact keysOf_set_of_get _ _ _ _ h
    · rfl
  · rfl

theorem get_attrsAfter_ne (keys : List String) (attrs machine' : Obj) (k : String)
    (hk : some k ≠ keys.head?) : get (attrsAfter keys attrs machine') k = get attrs k := by
  unfold attrsAfter
  split
  · rename_i key _ _
    have hne : k ≠ key := fun heq => hk (by simp [heq])
    split
    · exact get_set_ne _ _ _ _ hne
    · rfl
  · rfl

/-! ## `replaceUserData`: the machine loop -/

/-- What the machine loop does to each entry, whatever is left of the path
when it starts (`first` is the first post-wildcard segment, `attrs₀` the
attributes of the mixin, `attrs` what they are by now). -/
theorem rangeMachines_entries (payload : String) (userData : List String) (attrs₀ : Obj)
    (first : Option String) :
    ∀ (node : Obj) (keys : List String) (attrs : Obj) (node' : Obj),
      (keys = [] ∨ keys.head? = first) →
      keysOf attrs = keysOf attrs₀ →
      (∀ k, some k ≠ first → get attrs k = get attrs₀ k) →
      rangeMachines payload userData keys attrs node = .ok node' →
      List.Forall₂
        (fun e e' => SameShape e e' ∧ ((keysOf attrs₀).Nodup → Merged attrs₀ first e e'))
        node node' := by
  intro node
  induction node with
  | nil =>
    intro keys attrs node' _ _ _ h
    simp [rangeMachines] at h
    subst h
    exact List.Forall₂.nil
  | cons e rest ih =>
    intro keys attrs node' hkeys hsame hagree h
    obtain ⟨name, v⟩ := e
    have hhead : ∀ k, some k ≠ first → some k ≠ keys.head? := by
      intro k hk
      rcases hkeys with hnil | hfirst
      · simp [hnil]
      · rw [hfirst]
        exact hk
    by_cases hv : v.isObj = true
    · cases v with
      | obj machine =>
        rw [rangeMachines_cons_obj] at h
        cases hw : walk payload userData keys (assign attrs machine) with
        | error err =>
          rw [hw] at h
          exact Except.noConfusion h
        | ok machine' =>
          rw [hw] at h
          simp only at h
          cases hr : rangeMachines payload userData [] (attrsAfter keys attrs machine') rest with
          | error err =>
            rw [hr] at h
            exact Except.noConfusion h
          | ok rest' =>
            rw [hr] at h
            simp only at h
            injection h with h
            subst h
            have htail := ih [] (attrsAfter keys attrs machine') rest' (Or.inl rfl)
              (by rw [keysOf_attrsAfter, hsame])
              (by
                intro k hk
                rw [get_attrsAfter_ne _ _ _ _ (hhead k hk)]
                exact hagree k hk)
              hr
            refine List.Forall₂.cons ⟨⟨rfl, ?_, ?_⟩, fun hnodup => ⟨rfl, ?_⟩⟩ htail
            · intro hf
              exact Bool.noConfusion hf
            · intro _
              rfl
            · intro machine₀ hm
              injection hm with hm
              subst hm
              refine ⟨machine', rfl, ?_⟩
              intro k hk
              have hget : get machine' k = get (assign attrs machine) k :=
                walk_get_ne _ _ _ _ _ hw k (hhead k hk)
              constructor
              · intro val hval
                rw [hget]
                exact get_assign_some attrs (by rw [hsame]; exact hnodup) k val
                  (by rw [hagree k hk]; exact hval) _
              · intro hnone
                rw [hget]
                exact get_assign_none attrs k (by rw [hagree k hk]; exact hnone) _
      | null => exact Bool.noConfusion hv
      | bool b => exact Bool.noConfusion hv
      | num n => exact Bool.noConfusion hv
      | str x => exact Bool.noConfusion hv
      | arr items => exact Bool.noConfusion hv
    · have hv' : v.isObj = false := by
        cases hb : v.isObj with
        | true => exact absurd hb hv
        | false => rfl
      rw [rangeMachines_cons_other _ _ _ _ _ _ _ hv'] at h
      cases hr : rangeMachines payload userData keys attrs rest with
      | error err =>
        rw [hr] at h
        exact Except.noConfusion h
      | ok rest' =>
        rw [hr] at h
        simp only at h
        injection h with h
        subst h
        have htail := ih keys attrs rest' hkeys hsame hagree hr
        refine List.Forall₂.cons ⟨⟨rfl, fun _ => rfl, ?_⟩, fun _ => ⟨rfl, ?_⟩⟩ htail
        · intro ht
          exact absurd ht hv
        · intro machine₀ hm
          have hm' : v = .obj machine₀ := hm
          rw [hm'] at hv'
          exact Bool.noConfusion hv'

theorem replaceIn_cons (m : Mixin) (userData : List String) (key : String)
    (keys : List String) (machines : Obj) (hk : key ≠ "*") :
    replaceIn m userData (key :: keys) machines
      = match get machines key with
        | some (.obj child) =>
          match replaceIn m userData keys child with
          | .ok child' => .ok (set machines key (.obj child'))
          | .error e => .error e
        | _ => .error (.noKey key userData) := by
  simp [replaceIn, hk]

/-- The first loop only steps down: the tree returned differs from the one
given only below the literal prefix, where the machine loop has run. -/
theorem replaceIn_along (m : Mixin) (userData post : List String) (Q : Obj → Obj → Prop)
    (hQ : ∀ node node',
      rangeMachines m.CloudInit userData post m.Machine node = .ok node' → Q node node') :
    ∀ (pre : List String) (root root' : Obj), "*" ∉ pre →
      replaceIn m userData (pre ++ "*" :: post) root = .ok root' →
      Along Q pre root root' := by
  intro pre
  induction pre with
  | nil =>
    intro root root' _ h
    simp [replaceIn] at h
    exact hQ _ _ h
  | cons key pre ih =>
    intro root root' hstar h
    have hk : key ≠ "*" := fun heq => hstar (by simp [heq])
    have hpre : "*" ∉ pre := fun hmem => hstar (by simp [hmem])
    rw [List.cons_append, replaceIn_cons _ _ _ _ _ hk] at h
    split at h
    · rename_i child hget
      cases hr : replaceIn m userData (pre ++ "*" :: post) child with
      | error err =>
        rw [hr] at h
        exact Except.noConfusion h
      | ok child' =>
        rw [hr] at h
        simp only at h
        injection h with h
        subst h
        refine ⟨keysOf_set_of_get _ _ _ _ hget, ?_, child, child', hget, get_set_same _ _ _,
          ih child child' hpre hr⟩
        intro k hne
        exact get_set_ne _ _ _ _ hne
    · exact Except.noConfusion h

theorem Along.descend {Q : Obj → Obj → Prop} :
    ∀ (path : List String) (root root' : Obj), Along Q path root root' →
      ∃ node node', descend path root = some node ∧ descend path root' = some node' ∧
        Q node node' := by
  intro path
  induction path with
  | nil =>
    intro root root' h
    exact ⟨root, root', rfl, rfl, h⟩
  | cons key path ih =>
    intro root root' h
    obtain ⟨_, _, child, child', hc, hc', hrest⟩ := h
    obtain ⟨node, node', hn, hn', hq⟩ := ih child child' hrest
    exact ⟨node, node', by simp [Koding.descend, hc, hn], by simp [Koding.descend, hc', hn'], hq⟩

theorem resource_prefix_no_star (pre : List String) (hstar : "*" ∉ pre) :
    "*" ∉ "resource" :: pre := by
  intro h
  rcases List.mem_cons.1 h with h | h
  · exact absurd h (by decide)
  · exact hstar h

/-! ## `replaceUserData`: frame and merge -/

/-- C10: when `replaceUserData` succeeds, the returned tree differs from the
decoded one only inside the object entries of the wildcard level.  Along
`"resource"` and the literal prefix the key set of each node is the same and
every sibling of the segment has the same value; at the wildcard level the
entries are the same in number and keys, and every entry that is not an object
has the same value. -/
theorem replaceUserData_frame (unmarshal : String → Except Err Obj)
    (tmpl : String) (m : Mixin) (desc : Description) (root root' : Obj)
    (pre post : List String)
    (hparse : unmarshal tmpl = .ok root)
    (hpath : desc.UserData = pre ++ "*" :: post) (hstar : "*" ∉ pre)
    (hrun : replaceUserData unmarshal tmpl m desc = .ok root') :
    Along (List.Forall₂ SameShape) ("resource" :: pre) root root' := by
  simp only [replaceUserData, hparse] at hrun
  have hkeys : "resource" :: desc.UserData = ("resource" :: pre) ++ "*" :: post := by
    simp [hpath]
  rw [hkeys] at hrun
  refine replaceIn_along m desc.UserData post _ ?_ ("resource" :: pre) root root'
    (resource_prefix_no_star pre hstar) hrun
  intro node node' h
  have hall := rangeMachines_entries m.CloudInit desc.UserData m.Machine post.head?
    node post m.Machine node' (Or.inr rfl) rfl (fun _ _ => rfl) h
  exact List.Forall₂.imp (fun _ _ h => h.1) hall

/-- An instance of C10: a template with a sibling of `resource`, a sibling of
the resource type and an entry of the wildcard level that is not an object. -/
theorem replaceUserData_frame_witness :
    Along (List.Forall₂ SameShape) ["resource", "google_compute_instance"]
      [("provider", .str "google"),
       ("resource", .obj [("google_compute_instance",
          .obj [("count", .num 1), ("web", .obj [("metadata", .obj [])])]),
         ("google_dns", .obj [])])]
      [("provider", .str "google"),
       ("resource", .obj [("google_compute_instance",
          .obj [("count", .num 1), ("web", .obj [("metadata",
              .obj [("user-data", .str "#!/bin/bash\necho hi")]),
            ("zone", .str "us-central1-a")])]),
         ("google_dns", .obj [])])] :=
  replaceUserData_frame
    (tableUnmarshal [("t", [("provider", .str "google"),
       ("resource", .obj [("google_compute_instance",
          .obj [("count", .num 1), ("web", .obj [("metadata", .obj [])])]),
         ("google_dns", .obj [])])])])
    "t" gceMixin gceDesc _ _ ["google_compute_instance"] ["metadata", "user-data"]
    rfl rfl (by decide) rfl

/-- C9, as the code has it: when `replaceUserData` succeeds, every object
entry of the wildcard level holds, for each key `k` other than the first
post-wildcard segment, the mixin's value when `k` is a machine attribute and
the value it had in the template when it is not. -/
theorem replaceUserData_merge (unmarshal : String → Except Err Obj)
    (tmpl : String) (m : Mixin) (desc : Description) (root root' : Obj)
    (pre post : List String)
    (hparse : unmarshal tmpl = .ok root)
    (hpath : desc.UserData = pre ++ "*" :: post) (hstar : "*" ∉ pre)
    (hnodup : (keysOf m.Machine).Nodup)
    (hrun : replaceUserData unmarshal tmpl m desc = .ok root') :
    ∃ node node', descend ("resource" :: pre) root = some node ∧
      descend ("resource" :: pre) root' = some node' ∧
      List.Forall₂ (Merged m.Machine post.head?) node node' := by
  simp only [replaceUserData, hparse] at hrun
  have hkeys : "resource" :: desc.UserData = ("resource" :: pre) ++ "*" :: post := by
    simp [hpath]
  rw [hkeys] at hrun
  have halong := replaceIn_along m desc.UserData post
    (List.Forall₂ (Merged m.Machine post.head?)) (by
      intro node node' h
      have hall := rangeMachines_entries m.CloudInit desc.UserData m.Machine post.head?
        node post m.Machine node' (Or.inr rfl) rfl (fun _ _ => rfl) h
      exact List.Forall₂.imp (fun _ _ h => h.2 hnodup) hall)
    ("resource" :: pre) root root' (resource_prefix_no_star pre hstar) hrun
  exact Along.descend _ _ _ halong

/-- An instance of C9: the machine `web` of `awsTree` keeps `ami` and
receives `tag`. -/
theorem replaceUserData_merge_witness :
    (keysOf awsMixin.Machine).Nodup ∧
    ∃ node node', descend ["resource", "aws_instance"] awsTree = some node ∧
      descend ["resource", "aws_instance"]
        [("resource", .obj [("aws_instance", .obj [("web", .obj [("ami", .str "ami-1"),
          ("user_data", .str "#cloud-config"), ("tag", .str "dev")])])])] = some node' ∧
      List.Forall₂ (Merged awsMixin.Machine (some "user_data")) node node' :=
  ⟨by decide,
    replaceUserData_merge (tableUnmarshal [("t", awsTree)]) "t" awsMixin awsDesc awsTree _
      ["aws_instance"] ["user_data"] rfl rfl (by decide) (by decide) rfl⟩

/-- C9 fails as stated: the machine attribute `user_data` of the mixin is
`"mine"`, the call succeeds, and in the resulting machine object `user_data`
is the payload, not the mixin's value. -/
theorem replaceUserData_attribute_overwritten :
    get awsMixin.Machine "user_data" = some (.str "mine") ∧
    ∃ root', replaceUserData (tableUnmarshal [("t", awsTree)]) "t" awsMixin awsDesc = .ok root' ∧
      valueAt ["resource", "aws_instance", "web", "user_data"] root'
        = some (.str "#cloud-config") ∧
      valueAt ["resource", "aws_instance", "web", "user_data"] root' ≠ some (.str "mine") :=
  ⟨rfl, _, rfl, rfl, by
    intro h
    injection h with h
    injection h with h
    exact absurd h (by decide)⟩

/-! ## `replaceUserData`: a key of the path is missing -/

theorem descend_append_left :
    ∀ (p rest : List String) (root node : Obj), descend (p ++ rest) root = some node →
      ∃ mid, descend p root = some mid := by
  intro p
  induction p with
  | nil => intro rest root node _; exact ⟨root, rfl⟩
  | cons key p ih =>
    intro rest root node h
    simp only [List.cons_append, descend] at h
    split at h
    · rename_i child hget
      obtain ⟨mid, hmid⟩ := ih rest child node h
      exact ⟨mid, by simp [descend, hget, hmid]⟩
    · exact Option.noConfusion h

theorem eraseAt_cons (key : String) (path : List String) (k : String) (node child : Obj)
    (hget : get node key = some (.obj child)) :
    eraseAt (key :: path) k node = set node key (.obj (eraseAt path k child)) := by
  simp [eraseAt, hget]

/-- Removing a key of the literal prefix makes the first loop fail at that
key. -/
theorem replaceIn_erase_literal (m : Mixin) (userData : List String) (k : String)
    (rest : List String) (hk : k ≠ "*") :
    ∀ (p : List String) (root mid : Obj), "*" ∉ p → descend p root = some mid →
      replaceIn m userData (p ++ k :: rest) (eraseAt p k root) = .error (.noKey k userData) := by
  intro p
  induction p with
  | nil =>
    intro root mid _ _
    rw [List.nil_append, replaceIn_cons _ _ _ _ _ hk]
    simp [eraseAt, get_erase_same]
  | cons key p ih =>
    intro root mid hstar hd
    have hkey : key ≠ "*" := fun heq => hstar (by simp [heq])
    have hp : "*" ∉ p := fun hmem => hstar (by simp [hmem])
    simp only [descend] at hd
    split at hd
    · rename_i child hget
      rw [eraseAt_cons _ _ _ _ _ hget, List.cons_append, replaceIn_cons _ _ _ _ _ hkey,
        get_set_same]
      simp only
      rw [ih child mid hp hd]
    · exact Option.noConfusion hd

/-- A change below the literal prefix that makes the machine loop fail makes
the whole call fail with the same error. -/
theorem replaceIn_erase_deep (m : Mixin) (userData post path : List String) (k : String)
    (err : Err) :
    ∀ (pre : List String) (root node : Obj), "*" ∉ pre → descend pre root = some node →
      rangeMachines m.CloudInit userData post m.Machine (eraseAt path k node) = .error err →
      replaceIn m userData (pre ++ "*" :: post) (eraseAt (pre ++ path) k root) = .error err := by
  intro pre
  induction pre with
  | nil =>
    intro root node _ hd h
    simp only [descend] at hd
    injection hd with hd
    subst hd
    simp [replaceIn, h]
  | cons key pre ih =>
    intro root node hstar hd h
    have hkey : key ≠ "*" := fun heq => hstar (by simp [heq])
    have hp : "*" ∉ pre := fun hmem => hstar (by simp [hmem])
    simp only [descend] at hd
    split at hd
    · rename_i child hget
      simp only [List.cons_append]
      rw [eraseAt_cons _ _ _ _ _ hget, replaceIn_cons _ _ _ _ _ hkey, get_set_same]
      simp only
      rw [ih child node hp hd h]
    · exact Option.noConfusion hd

/-- Removing a key that the walk steps through makes the walk fail at that
key. -/
theorem walk_erase_error (payload : String) (userData : List String) (k : String)
    (r : List String) (hr : r ≠ []) :
    ∀ (q : List String) (machine result : Obj),
      walk payload userData (q ++ k :: r) machine = .ok result →
      walk payload userData (q ++ k :: r) (eraseAt q k machine) = .error (.noKey k userData) := by
  intro q
  induction q with
  | nil =>
    intro machine result _
    rw [List.nil_append, walk_cons_cons _ _ _ _ _ hr]
    simp [eraseAt, get_erase_same]
  | cons key q ih =>
    intro machine result h
    have htail : q ++ k :: r ≠ [] := by simp
    rw [List.cons_append, walk_cons_cons _ _ _ _ _ htail] at h
    split at h
    · rename_i child hget
      cases hw : walk payload userData (q ++ k :: r) child with
      | error e =>
        rw [hw] at h
        exact Except.noConfusion h
      | ok child' =>
        rw [eraseAt_cons _ _ _ _ _ hget, List.cons_append, walk_cons_cons _ _ _ _ _ htail,
          get_set_same]
        simp only
        rw [ih child child' hw]
    · exact Except.noConfusion h

/-- The same below a machine on which the attributes have been set, when the
first key of the walk is not an attribute. -/
theorem walk_assign_erase_error (payload : String) (userData : List String) (attrs : Obj)
    (k : String) (r : List String) (hr : r ≠ []) (q : List String) (machine result : Obj)
    (hfirst : ∀ k1, (q ++ k :: r).head? = some k1 → get attrs k1 = none)
    (h : walk payload userData (q ++ k :: r) (assign attrs machine) = .ok result) :
    walk payload userData (q ++ k :: r) (assign attrs (eraseAt q k machine))
      = .error (.noKey k userData) := by
  cases q with
  | nil =>
    have hk : get attrs k = none := hfirst k (by simp)
    rw [List.nil_append, walk_cons_cons _ _ _ _ _ hr, get_assign_none attrs k hk]
    simp [eraseAt, get_erase_same]
  | cons key q =>
    have hkey : get attrs key = none := hfirst key (by simp)
    have htail : q ++ k :: r ≠ [] := by simp
    rw [List.cons_append, walk_cons_cons _ _ _ _ _ htail, get_assign_none attrs key hkey] at h
    split at h
    · rename_i child hget
      cases hw : walk payload userData (q ++ k :: r) child with
      | error e =>
        rw [hw] at h
        exact Except.noConfusion h
      | ok child' =>
        rw [eraseAt_cons _ _ _ _ _ hget, List.cons_append, walk_cons_cons _ _ _ _ _ htail,
          get_assign_none attrs key hkey, get_set_same]
        simp only
        rw [walk_erase_error payload userData k r hr q child child' hw]
    · exact Except.noConfusion h

theorem rangeMachines_sole_ok (payload : String) (userData : List String)
    (name : String) (machine : Obj) :
    ∀ (node : Obj) (keys : List String) (attrs : Obj) (node' : Obj),
      rangeMachines payload userData keys attrs node = .ok node' →
      get node name = some (.obj machine) →
      (∀ e ∈ node, e.2.isObj = true → e = (name, .obj machine)) →
      ∃ result, walk payload userData keys (assign attrs machine) = .ok result := by
  intro node
  induction node with
  | nil =>
    intro keys attrs node' _ hget _
    simp [get] at hget
  | cons e rest ih =>
    intro keys attrs node' h hget hsole
    obtain ⟨k0, v0⟩ := e
    by_cases hk : k0 = name
    · have hv : v0 = .obj machine := by simpa [get, hk] using hget
      subst hv
      rw [rangeMachines_cons_obj] at h
      cases hw : walk payload userData keys (assign attrs machine) with
      | error err =>
        rw [hw] at h
        exact Except.noConfusion h
      | ok result => exact ⟨result, rfl⟩
    · have hget' : get rest name = some (.obj machine) := by simpa [get, hk] using hget
      have hv : v0.isObj = false := by
        cases hb : v0.isObj with
        | false => rfl
        | true =>
          have := hsole (k0, v0) (by simp) hb
          injection this with h1 _
          exact absurd h1 hk
      rw [rangeMachines_cons_other _ _ _ _ _ _ _ hv] at h
      cases hr : rangeMachines payload userData keys attrs rest with
      | error err =>
        rw [hr] at h
        exact Except.noConfusion h
      | ok rest' =>
        exact ih keys attrs rest' hr hget' (fun e he => hsole e (by simp [he]))

theorem rangeMachines_sole_error (payload : String) (userData : List String)
    (name : String) (machine changed : Obj) (keys : List String) (attrs : Obj) (err : Err)
    (hwalk : walk payload userData keys (assign attrs changed) = .error err) :
    ∀ (node : Obj), get node name = some (.obj machine) →
      (∀ e ∈ node, e.2.isObj = true → e = (name, .obj machine)) →
      rangeMachines payload userData keys attrs (set node name (.obj changed)) = .error err := by
  intro node
  induction node with
  | nil =>
    intro hget _
    simp [get] at hget
  | cons e rest ih =>
    intro hget hsole
    obtain ⟨k0, v0⟩ := e
    by_cases hk : k0 = name
    · simp only [set, hk, if_true]
      rw [rangeMachines_cons_obj, hwalk]
    · have hget' : get rest name = some (.obj machine) := by simpa [get, hk] using hget
      have hv : v0.isObj = false := by
        cases hb : v0.isObj with
        | false => rfl
        | true =>
          have := hsole (k0, v0) (by simp) hb
          injection this with h1 _
          exact absurd h1 hk
      simp only [set, hk, if_false]
      rw [rangeMachines_cons_other _ _ _ _ _ _ _ hv,
        ih hget' (fun e he => hsole e (by simp [he]))]

theorem noKey_text_contains (quote : String → String) (k : String) (userData : List String) :
    Contains ((Err.noKey k userData).text quote) (quote k) :=
  ⟨"template does not contain ", " key: [" ++ " ".intercalate userData ++ "]",
    by simp [Err.text, String.append_assoc]⟩

/-- C2, as the code has it.  `replaceUserData` has succeeded on a template.
(1) Removing `"resource"` or a literal segment before the wildcard, at its
place on the path, makes `replaceUserData` return the error "template does not
contain (key) key".  (2) So does removing a post-wildcard segment other than
the last, at its place inside a machine, when that machine is the only object
entry of the wildcard level and the first post-wildcard segment is not a
machine attribute of the mixin.  (3) The text of that error contains the `%q`
rendering of the key. -/
theorem replaceUserData_missing_key (unmarshal : String → Except Err Obj)
    (tmpl : String) (m : Mixin) (desc : Description) (root root' : Obj)
    (pre post : List String)
    (hparse : unmarshal tmpl = .ok root)
    (hpath : desc.UserData = pre ++ "*" :: post) (hstar : "*" ∉ pre)
    (hrun : replaceUserData unmarshal tmpl m desc = .ok root') :
    (∀ (p : List String) (k : String) (r : List String) (tmpl' : String),
      "resource" :: pre = p ++ k :: r →
      unmarshal tmpl' = .ok (eraseAt p k root) →
      replaceUserData unmarshal tmpl' m desc = .error (.noKey k desc.UserData)) ∧
    (∀ (node : Obj) (name : String) (machine : Obj) (q : List String) (k : String)
        (r : List String) (tmpl' : String),
      descend ("resource" :: pre) root = some node →
      get node name = some (.obj machine) →
      (∀ e ∈ node, e.2.isObj = true → e = (name, .obj machine)) →
      post = q ++ k :: r → r ≠ [] →
      (∀ k1, post.head? = some k1 → get m.Machine k1 = none) →
      unmarshal tmpl' = .ok (eraseAt (("resource" :: pre) ++ name :: q) k root) →
      replaceUserData unmarshal tmpl' m desc = .error (.noKey k desc.UserData)) ∧
    (∀ (k : String) (quote : String → String),
      Contains ((Err.noKey k desc.UserData).text quote) (quote k)) := by
  have hno := resource_prefix_no_star pre hstar
  have hkeys : "resource" :: desc.UserData = ("resource" :: pre) ++ "*" :: post := by
    simp [hpath]
  simp only [replaceUserData, hparse] at hrun
  rw [hkeys] at hrun
  have halong := replaceIn_along m desc.UserData post (fun node node' =>
      rangeMachines m.CloudInit desc.UserData post m.Machine node = .ok node')
    (fun _ _ h => h) ("resource" :: pre) root root' hno hrun
  obtain ⟨node₀, node₀', hd₀, _, hrange⟩ := Along.descend _ _ _ halong
  refine ⟨?_, ?_, fun k quote => noKey_text_contains quote k desc.UserData⟩
  · intro p k r tmpl' hsplit hparse'
    have hp : "*" ∉ p := fun hmem => hno (by rw [hsplit]; simp [hmem])
    have hk : k ≠ "*" := fun heq => hno (by rw [hsplit]; simp [heq])
    rw [hsplit] at hd₀
    obtain ⟨mid, hmid⟩ := descend_append_left p (k :: r) root node₀ hd₀
    simp only [replaceUserData, hparse']
    rw [hkeys, hsplit, List.append_assoc, List.cons_append]
    exact replaceIn_erase_literal m desc.UserData k (r ++ "*" :: post) hk p root mid hp hmid
  · intro node name machine q k r tmpl' hd hget hsole hpost hr hfirst hparse'
    have hnode : node = node₀ := by
      rw [hd₀] at hd
      injection hd with hd
      exact hd.symm
    subst hnode
    obtain ⟨result, hwalk⟩ := rangeMachines_sole_ok m.CloudInit desc.UserData name machine
      node post m.Machine node₀' hrange hget hsole
    rw [hpost] at hwalk hfirst
    have herr := walk_assign_erase_error m.CloudInit desc.UserData m.Machine k r hr q machine
      result hfirst hwalk
    have hrange' := rangeMachines_sole_error m.CloudInit desc.UserData name machine
      (eraseAt q k machine) (q ++ k :: r) m.Machine _ herr node hget hsole
    rw [← eraseAt_cons name q k node machine hget, ← hpost] at hrange'
    simp only [replaceUserData, hparse']
    rw [hkeys]
    exact replaceIn_erase_deep m desc.UserData post (name :: q) k _ ("resource" :: pre) root
      node hno hd₀ hrange'

/-- An instance of C2: without `google_compute_instance` the call names that
key, and without `metadata` in the only machine it names `metadata`. -/
theorem replaceUserData_missing_key_witness :
    replaceUserData gceUnmarshal "full" gceMixin gceDesc
      = .ok [("resource", .obj [("google_compute_instance", .obj [("web",
          .obj [("metadata", .obj [("user-data", .str "#!/bin/bash\necho hi")]),
                ("zone", .str "us-central1-a")])])])] ∧
    replaceUserData gceUnmarshal "no-type" gceMixin gceDesc
      = .error (.noKey "google_compute_instance" gceDesc.UserData) ∧
    replaceUserData gceUnmarshal "no-metadata" gceMixin gceDesc
      = .error (.noKey "metadata" gceDesc.UserData) :=
  have h := replaceUserData_missing_key gceUnmarshal "full" gceMixin gceDesc gceTree _
    ["google_compute_instance"] ["metadata", "user-data"] rfl rfl (by decide) rfl
  ⟨rfl,
    h.1 ["resource"] "google_compute_instance" [] "no-type" rfl rfl,
    h.2.1 [("web", .obj [("metadata", .obj [])])] "web" [("metadata", .obj [])] []
      "metadata" ["user-data"] "no-metadata" rfl rfl
      (by
        intro e he _
        simpa using he)
      rfl (by simp)
      (by
        intro k1 hk1
        simp at hk1
        subst hk1
        rfl)
      rfl⟩

/-- C2 fails as stated: the call succeeds on the template, the key `metadata`
that the path references inside the machine `web` is removed, and the call
still succeeds, because the machine attributes of the mixin bring `metadata`. -/
theorem replaceUserData_missing_key_supplied :
    (∃ root', replaceUserData gceUnmarshal "full" metadataMixin gceDesc = .ok root') ∧
    eraseAt ["resource", "google_compute_instance", "web"] "metadata" gceTree
      = gceTreeNoMetadata ∧
    gceUnmarshal "no-metadata" = .ok gceTreeNoMetadata ∧
    replaceUserData gceUnmarshal "no-metadata" metadataMixin gceDesc
      = .ok [("resource", .obj [("google_compute_instance", .obj [("web",
          .obj [("metadata", .obj [("user-data", .str "#!/bin/bash\necho hi")])])])])] :=
  ⟨⟨_, rfl⟩, rfl, rfl, rfl⟩

end Koding
